import Mathlib

/-!
# pdf-to-excel: the blood-report text parser

A shallow embedding of `parseBloodReport` (src/server.js, lines 66-132) and of the
regular expressions it uses.

* A JavaScript string is a sequence of UTF-16 code units; it is modelled as a list of
  natural numbers (`JSString`).  `utf16` encodes a Lean string literal that way.
* A regular expression is embedded as a backtracking matcher: a function from a match
  state to the list of all states in which the expression can finish, in the priority
  order of the ECMAScript backtracking semantics.  The first element of that list is the
  match the engine reports.
* `parseBloodReport` is the source function, statement by statement.
-/

namespace PdfToExcel

/-! ## Strings -/

/-- A JavaScript string: its UTF-16 code units. -/
abbrev JSString := List Nat

/-- UTF-16 code units of one Unicode scalar value. -/
def utf16Char (c : Char) : List Nat :=
  if c.toNat < 65536 then [c.toNat]
  else [55296 + (c.toNat - 65536) / 1024, 56320 + (c.toNat - 65536) % 1024]

/-- UTF-16 code units of a string literal. -/
def utf16 (s : String) : JSString := s.toList.flatMap utf16Char

/-! ## Character classes -/

/-- The class `[A-Z]`. -/
def isUpper (c : Nat) : Bool := decide (65 ≤ c) && decide (c ≤ 90)

/-- The class `[a-z]`. -/
def isLower (c : Nat) : Bool := decide (97 ≤ c) && decide (c ≤ 122)

/-- The class `\d`, that is `[0-9]`. -/
def isDigit (c : Nat) : Bool := decide (48 ≤ c) && decide (c ≤ 57)

/-- The class `\s`: ECMAScript WhiteSpace and LineTerminator code points.  The same set is
what `String.prototype.trim` strips. -/
def isSpace (c : Nat) : Bool :=
  c == 9 || c == 10 || c == 11 || c == 12 || c == 13 || c == 32 || c == 160 ||
  c == 5760 || (decide (8192 ≤ c) && decide (c ≤ 8202)) || c == 8232 || c == 8233 ||
  c == 8239 || c == 8287 || c == 12288 || c == 65279

/-- The class `[A-Za-z\s]`. -/
def isNameChar (c : Nat) : Bool := isUpper c || isLower c || isSpace c

/-- The class `[\d.]`. -/
def isValueChar (c : Nat) : Bool := isDigit c || c == 46

/-- The class `[a-zA-Z\/%]`. -/
def isUnitChar (c : Nat) : Bool := isLower c || isUpper c || c == 47 || c == 37

/-- The single character `:`. -/
def isColon (c : Nat) : Bool := c == 58

/-- Canonicalisation of a code unit under the `i` flag (no `u` flag): the upper-case
mapping.  On code units below 128 it maps `a`-`z` to `A`-`Z` and fixes everything else; a
code unit from 128 on is never mapped below 128, so against the ASCII letters of the
patterns of this program it behaves as if it were fixed, which is how it is modelled. -/
def canonicalize (c : Nat) : Nat := if isLower c then c - 32 else c

/-! ## Backtracking matchers -/

/-- State of a match in progress: the index reached, the input from there on, and the
three capture groups. -/
structure MatchState where
  pos : Nat
  rest : JSString
  cap1 : Option JSString
  cap2 : Option JSString
  cap3 : Option JSString
deriving DecidableEq, Repr

/-- A regular expression as a backtracking matcher: all end states, best first. -/
abbrev Matcher := MatchState → List MatchState

/-- Store a capture. -/
def MatchState.setCap (x : MatchState) (k : Nat) (v : JSString) : MatchState :=
  match k with
  | 1 => { x with cap1 := some v }
  | 2 => { x with cap2 := some v }
  | _ => { x with cap3 := some v }

/-- One character of class `p`. -/
def cls (p : Nat → Bool) : Matcher := fun x =>
  match x.rest with
  | [] => []
  | c :: r => if p c then [{ x with pos := x.pos + 1, rest := r }] else []

/-- One literal character under the `i` flag. -/
def chrI (a : Nat) : Matcher := cls (fun c => canonicalize c == canonicalize a)

/-- Concatenation. -/
def seq (m n : Matcher) : Matcher := fun x => (m x).flatMap n

/-- Alternation `m|n`: the left alternative has priority. -/
def alt (m n : Matcher) : Matcher := fun x => m x ++ n x

/-- Greedy `m?` for an `m` that consumes input: first with `m`, then without. -/
def opt (m : Matcher) : Matcher := fun x => m x ++ [x]

/-- End positions of `p*` (greedy) from index `pos` on input `rest`: longest first. -/
def greedyEnds (p : Nat → Bool) : JSString → Nat → List (Nat × JSString)
  | [], pos => [(pos, [])]
  | c :: r, pos =>
    if p c then greedyEnds p r (pos + 1) ++ [(pos, c :: r)] else [(pos, c :: r)]

/-- End positions of `p*?` (lazy) from index `pos` on input `rest`: shortest first. -/
def lazyEnds (p : Nat → Bool) : JSString → Nat → List (Nat × JSString)
  | [], pos => [(pos, [])]
  | c :: r, pos =>
    if p c then (pos, c :: r) :: lazyEnds p r (pos + 1) else [(pos, c :: r)]

/-- Greedy `p*` for a character class `p`. -/
def star (p : Nat → Bool) : Matcher := fun x =>
  (greedyEnds p x.rest x.pos).map (fun e => { x with pos := e.1, rest := e.2 })

/-- Lazy `p*?` for a character class `p`. -/
def lazyStar (p : Nat → Bool) : Matcher := fun x =>
  (lazyEnds p x.rest x.pos).map (fun e => { x with pos := e.1, rest := e.2 })

/-- Greedy `p+`. -/
def plus (p : Nat → Bool) : Matcher := seq (cls p) (star p)

/-- Lazy `p+?`. -/
def lazyPlus (p : Nat → Bool) : Matcher := seq (cls p) (lazyStar p)

/-- Capture group number `k` around `m`. -/
def group (k : Nat) (m : Matcher) : Matcher := fun x =>
  (m x).map (fun y => y.setCap k (x.rest.take (y.pos - x.pos)))

/-- The assertion `^` (no `m` flag). -/
def bos : Matcher := fun x => if x.pos = 0 then [x] else []

/-- The assertion `$` (no `m` flag). -/
def eos : Matcher := fun x => if x.rest.isEmpty then [x] else []

/-- A literal word under the `i` flag. -/
def wordI : List Nat → Matcher
  | [] => fun x => [x]
  | a :: w => seq (chrI a) (wordI w)

/-- Alternation of literal words under the `i` flag, `w1|w2|...`. -/
def wordsI : List (List Nat) → Matcher
  | [] => fun _ => []
  | w :: ws => alt (wordI w) (wordsI ws)

/-- Try the expression at index `pos` exactly; the first end state is the match. -/
def matchAt (re : Matcher) (pos : Nat) (rest : JSString) : Option MatchState :=
  (re { pos := pos, rest := rest, cap1 := none, cap2 := none, cap3 := none }).head?

/-- `RegExp.prototype.exec` of a non-global expression: the leftmost match, searching the
start index from `pos` to the end of the input (the end included). -/
def execFrom (re : Matcher) : Nat → JSString → Option MatchState
  | pos, [] => matchAt re pos []
  | pos, c :: r =>
    match matchAt re pos (c :: r) with
    | some y => some y
    | none => execFrom re (pos + 1) r

/-- `s.match(re)` for a non-global `re`: the match, or `none` for `null`. -/
def jsMatch (re : Matcher) (s : JSString) : Option MatchState := execFrom re 0 s

/-- `[...s.matchAll(re)]` for a global `re`, from index `pos` with `skip` positions still
inside the previous match.  After a match ending at `e` the search resumes at `e`, or one
further when the match was empty. -/
def matchAllFrom (re : Matcher) : Nat → Nat → JSString → List MatchState
  | skip, pos, [] =>
    if skip = 0 then (matchAt re pos []).toList else []
  | skip, pos, c :: r =>
    match skip with
    | 0 =>
      match matchAt re pos (c :: r) with
      | some y => y :: matchAllFrom re (y.pos - pos - 1) (pos + 1) r
      | none => matchAllFrom re 0 (pos + 1) r
    | k + 1 => matchAllFrom re k (pos + 1) r

/-- `[...s.matchAll(re)]`. -/
def matchAll (re : Matcher) (s : JSString) : List MatchState := matchAllFrom re 0 0 s

/-! ## The expressions of `parseBloodReport` -/

/-- `/([A-Z][A-Za-z\s]+?)\s*:?\s*([\d.]+)\s*([a-zA-Z\/%]+)?/g` -/
def patternA : Matcher :=
  seq (group 1 (seq (cls isUpper) (lazyPlus isNameChar)))
    (seq (star isSpace) (seq (opt (cls isColon)) (seq (star isSpace)
      (seq (group 2 (plus isValueChar)) (seq (star isSpace)
        (opt (group 3 (plus isUnitChar))))))))

/-- `/([A-Z][A-Za-z\s]+?)\s+([\d.]+)\s*([a-zA-Z\/%]+)?/g` -/
def patternB : Matcher :=
  seq (group 1 (seq (cls isUpper) (lazyPlus isNameChar)))
    (seq (plus isSpace)
      (seq (group 2 (plus isValueChar)) (seq (star isSpace)
        (opt (group 3 (plus isUnitChar))))))

/-- The array `testPatterns`. -/
def testPatterns : List Matcher := [patternA, patternB]

/-- The eleven words of the filter expression. -/
def stopWords : List JSString :=
  [utf16 "Patient", utf16 "Name", utf16 "Date", utf16 "Age", utf16 "Gender",
   utf16 "Report", utf16 "Test", utf16 "Result", utf16 "Reference", utf16 "Normal",
   utf16 "Range"]

/-- `/^(Patient|Name|Date|Age|Gender|Report|Test|Result|Reference|Normal|Range)$/i` -/
def stopRe : Matcher := seq bos (seq (group 1 (wordsI stopWords)) eos)

/-- `/\d/` -/
def digitRe : Matcher := cls isDigit

/-- `/[\d.]+/` -/
def numberRe : Matcher := plus isValueChar

/-- `/([\d.]+)\s*([a-zA-Z\/%]+)?/` -/
def valueRe : Matcher :=
  seq (group 1 (plus isValueChar)) (seq (star isSpace) (opt (group 2 (plus isUnitChar))))

/-! ## parseBloodReport -/

/-- `String.prototype.trim`. -/
def trim (s : JSString) : JSString := (s.dropWhile isSpace).rdropWhile isSpace

/-- `text.split('\n')`. -/
def splitNewline : JSString → List JSString
  | [] => [[]]
  | c :: r =>
    if c = 10 then [] :: splitNewline r
    else
      match splitNewline r with
      | [] => [[c]]
      | l :: ls => (c :: l) :: ls

/-- An element of the array `data`: a structured row or a raw-line row. -/
inductive Record where
  | structured (testName value unit : JSString) (rowNumber : Nat)
  | fallback (lineNumber : Nat) (content : JSString)
deriving DecidableEq, Repr

/-- The keys of a record, in insertion order. -/
def Record.keys : Record → List String
  | .structured _ _ _ _ => ["Test Name", "Value", "Unit", "Row Number"]
  | .fallback _ _ => ["Line Number", "Content"]

/-- `text.split('\n').map(line => line.trim()).filter(line => line.length > 0)` -/
def prepareLines (text : JSString) : List JSString :=
  ((splitNewline text).map trim).filter (fun line => decide (line.length > 0))

/-- A capture group read as `match[k]`, where a group that did not take part is
`undefined`; groups 1 and 2 of the test patterns always take part. -/
def capOr (c : Option JSString) : JSString := c.getD []

/-- The expression `c || ''` for a capture group `c`: the empty string when the group is
`undefined` (or empty). -/
def orEmpty (c : Option JSString) : JSString :=
  match c with
  | some u => if u.length > 0 then u else []
  | none => []

/-- The filter condition on a test name (line 87). -/
def acceptName (testName : JSString) : Bool :=
  decide (testName.length > 2) && (jsMatch stopRe testName).isNone

/-- Body of `matches.forEach(match => ...)` (lines 82-94). -/
def pushMatch (index : Nat) (data : List Record) (m : MatchState) : List Record :=
  let testName := trim (capOr m.cap1)
  let value := trim (capOr m.cap2)
  let unit :=
    match m.cap3 with
    | some u => if u.length > 0 then trim u else []
    | none => []
  if acceptName testName then
    data ++ [Record.structured testName value unit (index + 1)]
  else data

/-- The loop `for (const pattern of testPatterns)` (lines 78-97). -/
def patternPass (index : Nat) (line : JSString) (data : List Record) : List Record :=
  testPatterns.foldl
    (fun data pattern =>
      let ms := matchAll pattern line
      if ms.length > 0 then ms.foldl (pushMatch index) data else data)
    data

/-- The header / next-line block (lines 100-116). -/
def headerCheck (lines : List JSString) (index : Nat) (line : JSString)
    (data : List Record) : List Record :=
  if data.length = 0 || (jsMatch digitRe line).isNone then
    if decide (line.length > 3) && decide (line.length < 50) then
      match lines.get? (index + 1) with
      | some nextLine =>
        if decide (nextLine.length > 0) && (jsMatch numberRe nextLine).isSome then
          match jsMatch valueRe nextLine with
          | some valueMatch =>
            data ++ [Record.structured line (capOr valueMatch.cap1)
              (orEmpty valueMatch.cap2) (index + 1)]
          | none => data
        else data
      | none => data
    else data
  else data

/-- Body of the first `lines.forEach((line, index) => ...)` (lines 77-116). -/
def lineStep (lines : List JSString) (data : List Record) (il : Nat × JSString) :
    List Record :=
  headerCheck lines il.1 il.2 (patternPass il.1 il.2 data)

/-- The array `data` after the first `lines.forEach` (lines 76-117). -/
def scanLines (lines : List JSString) : List Record :=
  lines.enum.foldl (lineStep lines) []

/-- Body of the second `lines.forEach` (lines 122-127). -/
def pushRaw (data : List Record) (il : Nat × JSString) : List Record :=
  if il.2.length > 0 then data ++ [Record.fallback (il.1 + 1) il.2] else data

/-- The function `parseBloodReport` (lines 66-132). -/
def parseBloodReport (text : JSString) : List Record :=
  let lines := prepareLines text
  let data := scanLines lines
  if data.length = 0 then lines.enum.foldl pushRaw data else data

/-- The `Row Number` of a structured row; a raw-line row has none. -/
def Record.rowNumber? : Record → Option Nat
  | .structured _ _ _ rowNumber => some rowNumber
  | .fallback _ _ => none

/-! ## parseBloodReport with the run-time failures made explicit

The same statements once more, where `none` stands for an exception: a method call on a
capture group that is `undefined` (`match[1].trim()`, `match[2].trim()`) throws a
TypeError.  The guarded expressions (`match[3] ? ... : ''`, `nextLine && ...`,
`if (valueMatch)`) cannot throw.  A `Value` that would be stored as `undefined`
(`valueMatch[1]`) is counted as a failure as well. -/

/-- Body of `matches.forEach(match => ...)` (lines 82-94); fails when group 1 or group 2
is `undefined`. -/
def pushMatchChecked (index : Nat) (data : List Record) (m : MatchState) :
    Option (List Record) :=
  match m.cap1, m.cap2 with
  | some g1, some g2 =>
    let testName := trim g1
    let value := trim g2
    let unit :=
      match m.cap3 with
      | some u => if u.length > 0 then trim u else []
      | none => []
    if acceptName testName then
      some (data ++ [Record.structured testName value unit (index + 1)])
    else some data
  | _, _ => none

/-- The loop `for (const pattern of testPatterns)` (lines 78-97), with failures. -/
def patternPassChecked (index : Nat) (line : JSString) (data : List Record) :
    Option (List Record) :=
  testPatterns.foldlM
    (fun data pattern =>
      let ms := matchAll pattern line
      if ms.length > 0 then ms.foldlM (pushMatchChecked index) data else some data)
    data

/-- The header / next-line block (lines 100-116), with failures. -/
def headerCheckChecked (lines : List JSString) (index : Nat) (line : JSString)
    (data : List Record) : Option (List Record) :=
  if data.length = 0 || (jsMatch digitRe line).isNone then
    if decide (line.length > 3) && decide (line.length < 50) then
      match lines.get? (index + 1) with
      | some nextLine =>
        if decide (nextLine.length > 0) && (jsMatch numberRe nextLine).isSome then
          match jsMatch valueRe nextLine with
          | some valueMatch =>
            match valueMatch.cap1 with
            | some value =>
              some (data ++ [Record.structured line value (orEmpty valueMatch.cap2)
                (index + 1)])
            | none => none
          | none => some data
        else some data
      | none => some data
    else some data
  else some data

/-- Body of the first `lines.forEach` (lines 77-116), with failures. -/
def lineStepChecked (lines : List JSString) (data : List Record) (il : Nat × JSString) :
    Option (List Record) :=
  (patternPassChecked il.1 il.2 data).bind (headerCheckChecked lines il.1 il.2)

/-- The function `parseBloodReport` (lines 66-132), with failures. -/
def parseBloodReportChecked (text : JSString) : Option (List Record) :=
  let lines := prepareLines text
  (lines.enum.foldlM (lineStepChecked lines) []).map
    (fun data => if data.length = 0 then lines.enum.foldl pushRaw data else data)

/-! ## Auxiliary notions for the proofs -/

/-- State `y` is reached from state `x` by consuming exactly `seg`; captures unchanged. -/
def Consumes (x : MatchState) (seg : JSString) (y : MatchState) : Prop :=
  x.rest = seg ++ y.rest ∧ y.pos = x.pos + seg.length ∧
    y.cap1 = x.cap1 ∧ y.cap2 = x.cap2 ∧ y.cap3 = x.cap3

/-- Equality of two strings up to the case of ASCII letters. -/
def equalsIgnoreCase (a b : JSString) : Prop := a.map canonicalize = b.map canonicalize

instance (a b : JSString) : Decidable (equalsIgnoreCase a b) :=
  inferInstanceAs (Decidable (a.map canonicalize = b.map canonicalize))

/-! ## Character classes -/

theorem isSpace_not_valueChar {c : Nat} (h : isSpace c = true) : isValueChar c = false := by
  by_contra hv
  simp only [Bool.not_eq_false] at hv
  simp only [isSpace, isValueChar, isDigit, Bool.or_eq_true, Bool.and_eq_true,
    decide_eq_true_eq, beq_iff_eq] at h hv
  omega

theorem isUnitChar_not_valueChar {c : Nat} (h : isUnitChar c = true) :
    isValueChar c = false := by
  by_contra hv
  simp only [Bool.not_eq_false] at hv
  simp only [isUnitChar, isLower, isUpper, isValueChar, isDigit, Bool.or_eq_true,
    Bool.and_eq_true, decide_eq_true_eq, beq_iff_eq] at h hv
  omega

theorem isUnitChar_not_space {c : Nat} (h : isUnitChar c = true) : isSpace c = false := by
  by_contra hv
  simp only [Bool.not_eq_false] at hv
  simp only [isUnitChar, isLower, isUpper, isSpace, Bool.or_eq_true,
    Bool.and_eq_true, decide_eq_true_eq, beq_iff_eq] at h hv
  omega

theorem isDigit_valueChar {c : Nat} (h : isDigit c = true) : isValueChar c = true := by
  simp [isValueChar, h]

/-! ## Matchers: what a result looks like -/

theorem Consumes.refl (x : MatchState) : Consumes x [] x := by
  simp [Consumes]

theorem Consumes.trans {x y z : MatchState} {s t : JSString}
    (h1 : Consumes x s y) (h2 : Consumes y t z) : Consumes x (s ++ t) z := by
  obtain ⟨a1, a2, a3, a4, a5⟩ := h1
  obtain ⟨b1, b2, b3, b4, b5⟩ := h2
  refine ⟨?_, ?_, ?_, ?_, ?_⟩
  · rw [a1, b1, List.append_assoc]
  · rw [b2, a2, List.length_append, Nat.add_assoc]
  · rw [b3, a3]
  · rw [b4, a4]
  · rw [b5, a5]

theorem mem_cls {p : Nat → Bool} {x y : MatchState} (h : y ∈ cls p x) :
    ∃ c, Consumes x [c] y ∧ p c = true := by
  unfold cls at h
  split at h
  · simp at h
  · rename_i c r hr
    by_cases hp : p c = true
    · simp only [hp, if_true, List.mem_singleton] at h
      subst h
      exact ⟨c, ⟨by simp [hr], by simp, rfl, rfl, rfl⟩, hp⟩
    · simp [hp] at h

theorem mem_greedyEnds {p : Nat → Bool} :
    ∀ (rest : JSString) (pos : Nat) (e : Nat × JSString), e ∈ greedyEnds p rest pos →
      ∃ seg, rest = seg ++ e.2 ∧ e.1 = pos + seg.length ∧ ∀ c ∈ seg, p c = true
  | [], pos, e, h => by
    simp only [greedyEnds, List.mem_singleton] at h
    subst h
    exact ⟨[], by simp⟩
  | c :: r, pos, e, h => by
    unfold greedyEnds at h
    by_cases hp : p c = true
    · simp only [hp, if_true, List.mem_append, List.mem_singleton] at h
      rcases h with h | h
      · obtain ⟨seg, h1, h2, h3⟩ := mem_greedyEnds r (pos + 1) e h
        refine ⟨c :: seg, by simp [h1], by simp [h2]; omega, ?_⟩
        intro d hd
        rcases List.mem_cons.1 hd with hd | hd
        · subst hd; exact hp
        · exact h3 d hd
      · subst h
        exact ⟨[], by simp⟩
    · simp only [hp, Bool.false_eq_true, if_false, List.mem_singleton] at h
      subst h
      exact ⟨[], by simp⟩

theorem mem_lazyEnds {p : Nat → Bool} :
    ∀ (rest : JSString) (pos : Nat) (e : Nat × JSString), e ∈ lazyEnds p rest pos →
      ∃ seg, rest = seg ++ e.2 ∧ e.1 = pos + seg.length ∧ ∀ c ∈ seg, p c = true
  | [], pos, e, h => by
    simp only [lazyEnds, List.mem_singleton] at h
    subst h
    exact ⟨[], by simp⟩
  | c :: r, pos, e, h => by
    unfold lazyEnds at h
    by_cases hp : p c = true
    · simp only [hp, if_true, List.mem_cons] at h
      rcases h with h | h
      · subst h
        exact ⟨[], by simp⟩
      · obtain ⟨seg, h1, h2, h3⟩ := mem_lazyEnds r (pos + 1) e h
        refine ⟨c :: seg, by simp [h1], by simp [h2]; omega, ?_⟩
        intro d hd
        rcases List.mem_cons.1 hd with hd | hd
        · subst hd; exact hp
        · exact h3 d hd
    · simp only [hp, Bool.false_eq_true, if_false, List.mem_singleton] at h
      subst h
      exact ⟨[], by simp⟩

theorem mem_star {p : Nat → Bool} {x y : MatchState} (h : y ∈ star p x) :
    ∃ seg, Consumes x seg y ∧ ∀ c ∈ seg, p c = true := by
  simp only [star, List.mem_map] at h
  obtain ⟨e, he, rfl⟩ := h
  obtain ⟨seg, h1, h2, h3⟩ := mem_greedyEnds _ _ _ he
  exact ⟨seg, ⟨h1, h2, rfl, rfl, rfl⟩, h3⟩

theorem mem_lazyStar {p : Nat → Bool} {x y : MatchState} (h : y ∈ lazyStar p x) :
    ∃ seg, Consumes x seg y ∧ ∀ c ∈ seg, p c = true := by
  simp only [lazyStar, List.mem_map] at h
  obtain ⟨e, he, rfl⟩ := h
  obtain ⟨seg, h1, h2, h3⟩ := mem_lazyEnds _ _ _ he
  exact ⟨seg, ⟨h1, h2, rfl, rfl, rfl⟩, h3⟩

theorem mem_seq {m n : Matcher} {x y : MatchState} :
    y ∈ seq m n x ↔ ∃ z, z ∈ m x ∧ y ∈ n z := by
  simp [seq, List.mem_flatMap]

theorem mem_plus {p : Nat → Bool} {x y : MatchState} (h : y ∈ plus p x) :
    ∃ seg, Consumes x seg y ∧ seg ≠ [] ∧ ∀ c ∈ seg, p c = true := by
  obtain ⟨z, hz, hy⟩ := mem_seq.1 h
  obtain ⟨c, hc, hpc⟩ := mem_cls hz
  obtain ⟨seg, hs, hp⟩ := mem_star hy
  refine ⟨[c] ++ seg, hc.trans hs, by simp, ?_⟩
  intro d hd
  rcases List.mem_append.1 hd with hd | hd
  · rw [List.mem_singleton.1 hd]; exact hpc
  · exact hp d hd

theorem mem_lazyPlus {p : Nat → Bool} {x y : MatchState} (h : y ∈ lazyPlus p x) :
    ∃ seg, Consumes x seg y ∧ seg ≠ [] ∧ ∀ c ∈ seg, p c = true := by
  obtain ⟨z, hz, hy⟩ := mem_seq.1 h
  obtain ⟨c, hc, hpc⟩ := mem_cls hz
  obtain ⟨seg, hs, hp⟩ := mem_lazyStar hy
  refine ⟨[c] ++ seg, hc.trans hs, by simp, ?_⟩
  intro d hd
  rcases List.mem_append.1 hd with hd | hd
  · rw [List.mem_singleton.1 hd]; exact hpc
  · exact hp d hd

theorem take_of_consumes {x y : MatchState} {seg : JSString} (h : Consumes x seg y) :
    x.rest.take (y.pos - x.pos) = seg := by
  obtain ⟨h1, h2, -⟩ := h
  rw [h1, h2]
  simp

theorem mem_opt {m : Matcher} {x y : MatchState} : y ∈ opt m x ↔ y ∈ m x ∨ y = x := by
  simp [opt]

theorem mem_group {k : Nat} {m : Matcher} {x y : MatchState} (h : y ∈ group k m x) :
    ∃ z, z ∈ m x ∧ y = z.setCap k (x.rest.take (z.pos - x.pos)) := by
  simp only [group, List.mem_map] at h
  obtain ⟨z, hz, rfl⟩ := h
  exact ⟨z, hz, rfl⟩

/-- The optional unit group: the third capture is absent or a non-empty run of unit
characters, the other captures are untouched. -/
theorem mem_unitGroup {x y : MatchState} (h : y ∈ opt (group 3 (plus isUnitChar)) x) :
    y.cap1 = x.cap1 ∧ y.cap2 = x.cap2 ∧
      (y.cap3 = x.cap3 ∨ ∃ u, y.cap3 = some u ∧ u ≠ [] ∧ ∀ c ∈ u, isUnitChar c = true) := by
  rcases mem_opt.1 h with h | h
  · obtain ⟨z, hz, rfl⟩ := mem_group h
    obtain ⟨seg, hs, hne, hp⟩ := mem_plus hz
    rw [take_of_consumes hs]
    exact ⟨hs.2.2.1, hs.2.2.2.1, Or.inr ⟨seg, rfl, hne, hp⟩⟩
  · subst h
    exact ⟨rfl, rfl, Or.inl rfl⟩

/-- The common tail `([\d.]+)\s*([a-zA-Z\/%]+)?` of both test patterns. -/
theorem mem_valueTail {x y : MatchState}
    (h : y ∈ seq (group 2 (plus isValueChar))
      (seq (star isSpace) (opt (group 3 (plus isUnitChar)))) x) :
    y.cap1 = x.cap1 ∧ (∃ v, y.cap2 = some v ∧ v ≠ [] ∧ ∀ c ∈ v, isValueChar c = true) ∧
      (y.cap3 = x.cap3 ∨ ∃ u, y.cap3 = some u ∧ u ≠ [] ∧ ∀ c ∈ u, isUnitChar c = true) := by
  obtain ⟨z, hz, hzy⟩ := mem_seq.1 h
  obtain ⟨w, hw, hwy⟩ := mem_seq.1 hzy
  obtain ⟨z0, hz0, rfl⟩ := mem_group hz
  obtain ⟨seg, hs, hne, hp⟩ := mem_plus hz0
  obtain ⟨sp, hsp, -⟩ := mem_star hw
  obtain ⟨u1, u2, u3⟩ := mem_unitGroup hwy
  rw [take_of_consumes hs] at hsp
  obtain ⟨-, -, c1, c2, c3⟩ := hsp
  refine ⟨?_, ⟨seg, ?_, hne, hp⟩, ?_⟩
  · rw [u1, c1]; exact hs.2.2.1
  · rw [u2, c2]; rfl
  · rw [c3] at u3
    have e3 : (z0.setCap 2 seg).cap3 = x.cap3 := hs.2.2.2.2
    rw [e3] at u3
    exact u3

/-- The common head `([A-Z][A-Za-z\s]+?)` of both test patterns. -/
theorem mem_nameGroup {x y : MatchState}
    (h : y ∈ group 1 (seq (cls isUpper) (lazyPlus isNameChar)) x) :
    (∃ n, y.cap1 = some n ∧ 2 ≤ n.length) ∧ y.cap3 = x.cap3 := by
  obtain ⟨z, hz, rfl⟩ := mem_group h
  obtain ⟨w, hw, hz⟩ := mem_seq.1 hz
  obtain ⟨c, hc, -⟩ := mem_cls hw
  obtain ⟨seg, hs, hne, -⟩ := mem_lazyPlus hz
  have hcs := hc.trans hs
  rw [take_of_consumes hcs]
  refine ⟨⟨[c] ++ seg, rfl, ?_⟩, hcs.2.2.2.2⟩
  cases seg with
  | nil => exact absurd rfl hne
  | cons a t => simp

/-- Shape of every match of pattern A: groups 1 and 2 took part, group 2 is a non-empty
run of `[\d.]`, group 3 is absent or a non-empty run of unit characters. -/
theorem mem_patternA {x y : MatchState} (h : y ∈ patternA x) :
    (∃ n, y.cap1 = some n ∧ 2 ≤ n.length) ∧
      (∃ v, y.cap2 = some v ∧ v ≠ [] ∧ ∀ c ∈ v, isValueChar c = true) ∧
      (y.cap3 = x.cap3 ∨ ∃ u, y.cap3 = some u ∧ u ≠ [] ∧ ∀ c ∈ u, isUnitChar c = true) := by
  obtain ⟨y1, h1, h⟩ := mem_seq.1 h
  obtain ⟨y2, h2, h⟩ := mem_seq.1 h
  obtain ⟨y3, h3, h⟩ := mem_seq.1 h
  obtain ⟨y4, h4, h⟩ := mem_seq.1 h
  obtain ⟨hn, hn3⟩ := mem_nameGroup h1
  obtain ⟨s2, c2, -⟩ := mem_star h2
  have c3 : y3.cap1 = y2.cap1 ∧ y3.cap3 = y2.cap3 := by
    rcases mem_opt.1 h3 with h3 | h3
    · obtain ⟨c, hc, -⟩ := mem_cls h3
      exact ⟨hc.2.2.1, hc.2.2.2.2⟩
    · subst h3; exact ⟨rfl, rfl⟩
  obtain ⟨s4, c4, -⟩ := mem_star h4
  obtain ⟨t1, t2, t3⟩ := mem_valueTail h
  refine ⟨?_, t2, ?_⟩
  · rw [t1, c4.2.2.1, c3.1, c2.2.2.1]; exact hn
  · rw [c4.2.2.2.2, c3.2, c2.2.2.2.2, hn3] at t3; exact t3

/-- Shape of every match of pattern B, as for pattern A. -/
theorem mem_patternB {x y : MatchState} (h : y ∈ patternB x) :
    (∃ n, y.cap1 = some n ∧ 2 ≤ n.length) ∧
      (∃ v, y.cap2 = some v ∧ v ≠ [] ∧ ∀ c ∈ v, isValueChar c = true) ∧
      (y.cap3 = x.cap3 ∨ ∃ u, y.cap3 = some u ∧ u ≠ [] ∧ ∀ c ∈ u, isUnitChar c = true) := by
  obtain ⟨y1, h1, h⟩ := mem_seq.1 h
  obtain ⟨y2, h2, h⟩ := mem_seq.1 h
  obtain ⟨hn, hn3⟩ := mem_nameGroup h1
  obtain ⟨s2, c2, -, -⟩ := mem_plus h2
  obtain ⟨t1, t2, t3⟩ := mem_valueTail h
  refine ⟨?_, t2, ?_⟩
  · rw [t1, c2.2.2.1]; exact hn
  · rw [c2.2.2.2.2, hn3] at t3; exact t3

/-- Shape of every match of `/([\d.]+)\s*([a-zA-Z\/%]+)?/`. -/
theorem mem_valueRe {x y : MatchState} (h : y ∈ valueRe x) :
    ∃ v, y.cap1 = some v ∧ v ≠ [] ∧ ∀ c ∈ v, isValueChar c = true := by
  obtain ⟨z, hz, hzy⟩ := mem_seq.1 h
  obtain ⟨w, hw, hwy⟩ := mem_seq.1 hzy
  obtain ⟨z0, hz0, rfl⟩ := mem_group hz
  obtain ⟨seg, hs, hne, hp⟩ := mem_plus hz0
  obtain ⟨sp, hsp, -⟩ := mem_star hw
  rw [take_of_consumes hs] at hsp
  have hy1 : y.cap1 = w.cap1 := by
    rcases mem_opt.1 hwy with hy | hy
    · obtain ⟨z1, hz1, rfl⟩ := mem_group hy
      obtain ⟨seg1, hs1, -, -⟩ := mem_plus hz1
      exact hs1.2.2.1
    · subst hy; rfl
  exact ⟨seg, by rw [hy1, hsp.2.2.1]; rfl, hne, hp⟩

/-! ## Searching for a match -/

/-- The initial state of a match attempt at index `pos`. -/
theorem mem_of_matchAt {re : Matcher} {pos : Nat} {rest : JSString} {y : MatchState}
    (h : matchAt re pos rest = some y) :
    y ∈ re { pos := pos, rest := rest, cap1 := none, cap2 := none, cap3 := none } :=
  List.mem_of_mem_head? h

theorem mem_of_execFrom {re : Matcher} {y : MatchState} :
    ∀ (s : JSString) (pos : Nat), execFrom re pos s = some y →
      ∃ p r, y ∈ re { pos := p, rest := r, cap1 := none, cap2 := none, cap3 := none }
  | [], pos, h => ⟨pos, [], mem_of_matchAt h⟩
  | c :: r, pos, h => by
    unfold execFrom at h
    split at h
    · rename_i z hz
      cases h
      exact ⟨pos, c :: r, mem_of_matchAt hz⟩
    · exact mem_of_execFrom r (pos + 1) h

theorem mem_of_matchAllFrom {re : Matcher} {y : MatchState} :
    ∀ (s : JSString) (skip pos : Nat), y ∈ matchAllFrom re skip pos s →
      ∃ p r, y ∈ re { pos := p, rest := r, cap1 := none, cap2 := none, cap3 := none }
  | [], skip, pos, h => by
    unfold matchAllFrom at h
    split at h
    · exact ⟨pos, [], mem_of_matchAt (Option.mem_toList.1 h)⟩
    · simp at h
  | c :: r, 0, pos, h => by
    unfold matchAllFrom at h
    simp only at h
    split at h
    · rename_i z hz
      rcases List.mem_cons.1 h with h | h
      · subst h
        exact ⟨pos, c :: r, mem_of_matchAt hz⟩
      · exact mem_of_matchAllFrom r _ _ h
    · exact mem_of_matchAllFrom r _ _ h
  | c :: r, k + 1, pos, h => by
    unfold matchAllFrom at h
    simp only at h
    exact mem_of_matchAllFrom r _ _ h

/-! ## Trimming and line preparation -/

theorem dropWhile_fix_of_initial {p : Nat → Bool} {t d : List Nat} (hd : d.dropWhile p = d)
    (ht : t <+: d) : t.dropWhile p = t := by
  cases t with
  | nil => rfl
  | cons a t1 =>
    obtain ⟨k, rfl⟩ := ht
    have h0 := List.dropWhile_eq_self_iff.1 hd (by simp)
    have ha : p a = false := by simpa using h0
    simp [List.dropWhile, ha]

theorem trim_idem (s : JSString) : trim (trim s) = trim s := by
  unfold trim
  have h1 : ((s.dropWhile isSpace).rdropWhile isSpace).dropWhile isSpace =
      (s.dropWhile isSpace).rdropWhile isSpace :=
    dropWhile_fix_of_initial (List.dropWhile_idempotent _ _) (List.rdropWhile_prefix _ _)
  rw [h1, List.rdropWhile_idempotent]

theorem mem_of_mem_trim {s : JSString} {c : Nat} (h : c ∈ trim s) : c ∈ s := by
  unfold trim at h
  exact (List.dropWhile_suffix _).subset ((List.rdropWhile_prefix _ _).subset h)

theorem trim_eq_self {s : JSString} (h : ∀ c ∈ s, isSpace c = false) : trim s = s := by
  unfold trim
  have h1 : s.dropWhile isSpace = s := by
    rw [List.dropWhile_eq_self_iff]
    intro hl
    have := h _ (List.get_mem s 0 hl)
    simpa using this
  rw [h1, List.rdropWhile_eq_self_iff]
  intro hl
  simp [h _ (List.getLast_mem hl)]

theorem trim_valueRun {v : JSString} (h : ∀ c ∈ v, isValueChar c = true) : trim v = v := by
  apply trim_eq_self
  intro c hc
  by_contra hs
  simp only [Bool.not_eq_false] at hs
  have := isSpace_not_valueChar hs
  rw [h c hc] at this
  exact Bool.noConfusion this

/-- Every prepared line is trimmed and non-empty. -/
theorem prepareLines_spec {text line : JSString} (h : line ∈ prepareLines text) :
    trim line = line ∧ 0 < line.length := by
  simp only [prepareLines, List.mem_filter, List.mem_map, decide_eq_true_eq] at h
  obtain ⟨⟨piece, -, rfl⟩, hlen⟩ := h
  exact ⟨trim_idem piece, hlen⟩

/-! ## The structure of the scan -/

theorem pushMatch_append (index : Nat) (data : List Record) (m : MatchState) :
    pushMatch index data m = data ++ pushMatch index [] m := by
  unfold pushMatch
  by_cases h : acceptName (trim (capOr m.cap1)) = true <;> simp [h]

theorem foldl_pushMatch (index : Nat) (ms : List MatchState) :
    ∀ data : List Record,
      ms.foldl (pushMatch index) data = data ++ ms.flatMap (pushMatch index [])  := by
  induction ms with
  | nil => intro data; simp
  | cons m ms ih =>
    intro data
    rw [List.foldl_cons, ih, pushMatch_append, List.flatMap_cons, List.append_assoc]

/-- The pattern pass appends, for pattern A and then for pattern B, the records of the
accepted matches in match order. -/
theorem patternPass_eq (index : Nat) (line : JSString) (data : List Record) :
    patternPass index line data =
      data ++ ((matchAll patternA line).flatMap (pushMatch index []) ++
        (matchAll patternB line).flatMap (pushMatch index [])) := by
  have step : ∀ (re : Matcher) (d : List Record),
      (if (matchAll re line).length > 0 then (matchAll re line).foldl (pushMatch index) d
        else d) = d ++ (matchAll re line).flatMap (pushMatch index []) := by
    intro re d
    by_cases h : (matchAll re line).length > 0
    · rw [if_pos h, foldl_pushMatch]
    · rw [if_neg h]
      have : matchAll re line = [] := by
        cases hm : matchAll re line with
        | nil => rfl
        | cons a t => rw [hm] at h; simp at h
      simp [this]
  simp only [patternPass, testPatterns, List.foldl_cons, List.foldl_nil]
  rw [step, step, List.append_assoc]

theorem patternPass_nil (index : Nat) (line : JSString) (data : List Record) :
    patternPass index line data = data ++ patternPass index line [] := by
  rw [patternPass_eq, patternPass_eq index line []]
  simp

/-- A record pushed for a match of a test pattern. -/
theorem mem_pushMatch {index : Nat} {m : MatchState} {r : Record}
    (h : r ∈ pushMatch index [] m) :
    acceptName (trim (capOr m.cap1)) = true ∧
      r = Record.structured (trim (capOr m.cap1)) (trim (capOr m.cap2))
        (match m.cap3 with
          | some u => if u.length > 0 then trim u else []
          | none => []) (index + 1) := by
  unfold pushMatch at h
  by_cases ha : acceptName (trim (capOr m.cap1)) = true
  · simp only [ha, if_true, List.nil_append, List.mem_singleton] at h
    exact ⟨ha, h⟩
  · simp [ha] at h

/-- A record of the pattern pass comes from a match of pattern A or pattern B. -/
theorem mem_patternPass {index : Nat} {line : JSString} {r : Record}
    (h : r ∈ patternPass index line []) :
    ∃ m, (m ∈ matchAll patternA line ∨ m ∈ matchAll patternB line) ∧
      r ∈ pushMatch index [] m := by
  rw [patternPass_eq] at h
  simp only [List.nil_append, List.mem_append, List.mem_flatMap] at h
  rcases h with ⟨m, hm, hr⟩ | ⟨m, hm, hr⟩
  · exact ⟨m, Or.inl hm, hr⟩
  · exact ⟨m, Or.inr hm, hr⟩

/-- Shape of a match found by `matchAll` with one of the two test patterns. -/
theorem matchAll_testPattern {line : JSString} {m : MatchState}
    (h : m ∈ matchAll patternA line ∨ m ∈ matchAll patternB line) :
    (∃ n, m.cap1 = some n ∧ 2 ≤ n.length) ∧
      (∃ v, m.cap2 = some v ∧ v ≠ [] ∧ ∀ c ∈ v, isValueChar c = true) ∧
      (m.cap3 = none ∨ ∃ u, m.cap3 = some u ∧ u ≠ [] ∧ ∀ c ∈ u, isUnitChar c = true) := by
  rcases h with h | h
  · obtain ⟨p, r, hm⟩ := mem_of_matchAllFrom _ _ _ h
    exact mem_patternA hm
  · obtain ⟨p, r, hm⟩ := mem_of_matchAllFrom _ _ _ h
    exact mem_patternB hm

/-! ## The tests `/\d/` and `/[\d.]+/` -/

theorem matchAt_cls (p : Nat → Bool) (pos : Nat) (c : Nat) (r : JSString) :
    (matchAt (cls p) pos (c :: r)).isSome = p c := by
  unfold matchAt cls
  by_cases h : p c = true <;> simp [h]

theorem greedyEnds_ne_nil (p : Nat → Bool) :
    ∀ (s : JSString) (pos : Nat), greedyEnds p s pos ≠ []
  | [], pos => by simp [greedyEnds]
  | c :: r, pos => by
    unfold greedyEnds
    by_cases h : p c = true <;> simp [h]

theorem matchAt_plus (p : Nat → Bool) (pos : Nat) (c : Nat) (r : JSString) :
    (matchAt (plus p) pos (c :: r)).isSome = p c := by
  unfold matchAt plus seq cls
  by_cases h : p c = true
  · simp only [h, if_true, List.flatMap_cons, List.flatMap_nil, List.append_nil]
    unfold star
    cases hg : greedyEnds p r (pos + 1) with
    | nil => exact absurd hg (greedyEnds_ne_nil p r (pos + 1))
    | cons a t => simp
  · simp [h]

/-- A search with a matcher that needs a first character of class `p` fails exactly on
strings without such a character. -/
theorem execFrom_eq_none_of_first {re : Matcher} {p : Nat → Bool}
    (hnil : ∀ pos, matchAt re pos [] = none)
    (hcons : ∀ pos c r, (matchAt re pos (c :: r)).isSome = p c) :
    ∀ (s : JSString) (pos : Nat), execFrom re pos s = none ↔ ∀ c ∈ s, p c = false
  | [], pos => by simp [execFrom, hnil]
  | c :: r, pos => by
    unfold execFrom
    have hc := hcons pos c r
    cases hm : matchAt re pos (c :: r) with
    | some y =>
      rw [hm] at hc
      simp only [Option.isSome_some] at hc
      simp [← hc]
    | none =>
      rw [hm] at hc
      simp only [Option.isSome_none] at hc
      simp only [execFrom_eq_none_of_first hnil hcons r (pos + 1), List.mem_cons,
        forall_eq_or_imp, ← hc, true_and]

/-- The test `line.match(/\d/)` fails exactly on lines without a digit. -/
theorem digitRe_none_iff (line : JSString) :
    jsMatch digitRe line = none ↔ ∀ c ∈ line, isDigit c = false :=
  @execFrom_eq_none_of_first digitRe isDigit (fun _ => rfl)
    (matchAt_cls isDigit) line 0

/-- The test `nextLine.match(/[\d.]+/)` succeeds exactly on lines with a digit or a point. -/
theorem numberRe_isSome_iff (line : JSString) :
    (jsMatch numberRe line).isSome = true ↔ ∃ c ∈ line, isValueChar c = true := by
  have h := @execFrom_eq_none_of_first numberRe isValueChar (fun _ => rfl)
    (matchAt_plus isValueChar) line 0
  unfold jsMatch
  cases hm : execFrom numberRe 0 line with
  | none =>
    have := h.1 hm
    simp only [Option.isSome_none, Bool.false_eq_true, false_iff, not_exists, not_and]
    intro c hc
    simp [this c hc]
  | some y =>
    simp only [Option.isSome_some, true_iff]
    by_contra hne
    have hall : ∀ c ∈ line, isValueChar c = false := by
      intro c hc
      by_contra hv
      exact hne ⟨c, hc, by simpa using hv⟩
    rw [h.2 hall] at hm
    exact Option.noConfusion hm

/-! ## The header / next-line block -/

/-- The header / next-line block either leaves `data` as it is or appends one record; the
latter only under all the conditions of lines 100-106. -/
theorem headerCheck_cases (lines : List JSString) (index : Nat) (line : JSString)
    (data : List Record) :
    headerCheck lines index line data = data ∨
      ∃ nl vm, (data.length = 0 ∨ jsMatch digitRe line = none) ∧
        3 < line.length ∧ line.length < 50 ∧ lines.get? (index + 1) = some nl ∧
        (jsMatch numberRe nl).isSome = true ∧ jsMatch valueRe nl = some vm ∧
        headerCheck lines index line data =
          data ++ [Record.structured line (capOr vm.cap1) (orEmpty vm.cap2) (index + 1)] := by
  unfold headerCheck
  by_cases h1 : (decide (data.length = 0) || (jsMatch digitRe line).isNone) = true
  · rw [if_pos h1]
    by_cases h2 : (decide (line.length > 3) && decide (line.length < 50)) = true
    · rw [if_pos h2]
      cases hn : lines.get? (index + 1) with
      | none => exact Or.inl rfl
      | some nl =>
        simp only []
        by_cases h3 : (decide (nl.length > 0) && (jsMatch numberRe nl).isSome) = true
        · rw [if_pos h3]
          cases hv : jsMatch valueRe nl with
          | none => exact Or.inl rfl
          | some vm =>
            right
            simp only [Bool.or_eq_true, Bool.and_eq_true, decide_eq_true_eq,
              Option.isNone_iff_eq_none] at h1 h2 h3
            exact ⟨nl, vm, h1, h2.1, h2.2, rfl, h3.2, hv, rfl⟩
        · rw [if_neg h3]
          exact Or.inl rfl
    · rw [if_neg h2]
      exact Or.inl rfl
  · rw [if_neg h1]
    exact Or.inl rfl

/-! ## Invariants of the scan -/

theorem scanLines_induction (lines : List JSString) (P : List Record → Prop) (h0 : P [])
    (hstep : ∀ data il, il ∈ lines.enum → P data → P (lineStep lines data il)) :
    P (scanLines lines) := by
  have key : ∀ (l : List (Nat × JSString)) (data : List Record),
      (∀ il ∈ l, il ∈ lines.enum) → P data → P (l.foldl (lineStep lines) data) := by
    intro l
    induction l with
    | nil => intro data _ hd; exact hd
    | cons a t ih =>
      intro data hsub hd
      rw [List.foldl_cons]
      exact ih _ (fun il hil => hsub il (List.mem_cons_of_mem _ hil))
        (hstep data a (hsub a (List.mem_cons_self _ _)) hd)
  exact key _ _ (fun _ h => h) h0

/-- Where a record of one step of the scan comes from. -/
theorem mem_lineStep {lines : List JSString} {data : List Record} {il : Nat × JSString}
    {r : Record} (h : r ∈ lineStep lines data il) :
    r ∈ data ∨ r ∈ patternPass il.1 il.2 [] ∨
      ∃ nl vm, 3 < il.2.length ∧ il.2.length < 50 ∧ lines.get? (il.1 + 1) = some nl ∧
        jsMatch valueRe nl = some vm ∧
        r = Record.structured il.2 (capOr vm.cap1) (orEmpty vm.cap2) (il.1 + 1) := by
  unfold lineStep at h
  have hp : r ∈ patternPass il.1 il.2 data → r ∈ data ∨ r ∈ patternPass il.1 il.2 [] := by
    intro hr
    rw [patternPass_nil] at hr
    exact List.mem_append.1 hr
  rcases headerCheck_cases lines il.1 il.2 (patternPass il.1 il.2 data) with hc | hc
  · rw [hc] at h
    rcases hp h with h | h
    · exact Or.inl h
    · exact Or.inr (Or.inl h)
  · obtain ⟨nl, vm, -, c2, c3, c4, -, c6, c7⟩ := hc
    rw [c7] at h
    rcases List.mem_append.1 h with h | h
    · rcases hp h with h | h
      · exact Or.inl h
      · exact Or.inr (Or.inl h)
    · exact Or.inr (Or.inr ⟨nl, vm, c2, c3, c4, c6, List.mem_singleton.1 h⟩)

/-- Where a record of the scan comes from: the pattern pass of some line, or the header /
next-line block of some line. -/
theorem mem_scanLines {lines : List JSString} {r : Record} (h : r ∈ scanLines lines) :
    ∃ il, il ∈ lines.enum ∧ (r ∈ patternPass il.1 il.2 [] ∨
      ∃ nl vm, 3 < il.2.length ∧ il.2.length < 50 ∧ lines.get? (il.1 + 1) = some nl ∧
        jsMatch valueRe nl = some vm ∧
        r = Record.structured il.2 (capOr vm.cap1) (orEmpty vm.cap2) (il.1 + 1)) := by
  revert r
  apply scanLines_induction lines
    (fun data => ∀ {r}, r ∈ data → ∃ il, il ∈ lines.enum ∧ (r ∈ patternPass il.1 il.2 [] ∨
      ∃ nl vm, 3 < il.2.length ∧ il.2.length < 50 ∧ lines.get? (il.1 + 1) = some nl ∧
        jsMatch valueRe nl = some vm ∧
        r = Record.structured il.2 (capOr vm.cap1) (orEmpty vm.cap2) (il.1 + 1)))
  · intro r hr
    simp at hr
  · intro data il hil ih r hr
    rcases mem_lineStep hr with h | h
    · exact ih h
    · exact ⟨il, hil, h⟩

/-! ## The stoplist expression -/

/-- A literal word under the `i` flag matches exactly a prefix that equals it up to case. -/
theorem wordI_eq : ∀ (w : List Nat) (x : MatchState),
    wordI w x =
      if (x.rest.take w.length).map canonicalize = w.map canonicalize ∧
          w.length ≤ x.rest.length then
        [{ x with pos := x.pos + w.length, rest := x.rest.drop w.length }]
      else []
  | [], x => by
    simp [wordI]
  | a :: w, x => by
    unfold wordI seq chrI cls
    cases hx : x.rest with
    | nil => simp
    | cons c r =>
      by_cases hc : canonicalize c = canonicalize a
      · simp only [hc, beq_self_eq_true, if_true, List.flatMap_cons, List.flatMap_nil,
          List.append_nil]
        rw [wordI_eq w]
        simp only [List.length_cons, List.take_succ_cons, List.map_cons, List.cons.injEq,
          true_and, Nat.add_le_add_iff_right, List.drop_succ_cons, hc]
        by_cases hcond : (List.take w.length r).map canonicalize = w.map canonicalize ∧
            w.length ≤ r.length
        · rw [if_pos hcond, if_pos hcond]
          simp [Nat.add_assoc, Nat.add_comm 1]
        · rw [if_neg hcond, if_neg hcond]
      · have hb : (canonicalize c == canonicalize a) = false := by simpa using hc
        simp [hb, hc]

theorem mem_wordsI {ws : List (List Nat)} {x y : MatchState} :
    y ∈ wordsI ws x ↔ ∃ w, w ∈ ws ∧ y ∈ wordI w x := by
  induction ws with
  | nil => simp [wordsI]
  | cons w ws ih =>
    simp only [wordsI, alt, List.mem_append, ih, List.mem_cons, exists_eq_or_imp]

/-- A whole string is matched by a literal word under `i` iff it equals it up to case. -/
theorem wordI_whole_iff (w s : List Nat) (pos : Nat) (c1 c2 c3 : Option JSString) :
    (∃ y, y ∈ wordI w { pos := pos, rest := s, cap1 := c1, cap2 := c2, cap3 := c3 } ∧
        y.rest = []) ↔ equalsIgnoreCase s w := by
  rw [wordI_eq]
  unfold equalsIgnoreCase
  constructor
  · rintro ⟨y, hy, hr⟩
    by_cases hcond : (List.take w.length s).map canonicalize = w.map canonicalize ∧
        w.length ≤ s.length
    · simp only [hcond, and_self, if_true, List.mem_singleton] at hy
      subst hy
      simp only [List.drop_eq_nil_iff] at hr
      have hlen : w.length = s.length := Nat.le_antisymm hcond.2 hr
      have := hcond.1
      rw [hlen, List.take_length] at this
      exact this
    · simp only [] at hy
      rw [if_neg hcond] at hy
      simp at hy
  · intro h
    have hlen : s.length = w.length := by
      have := congrArg List.length h
      simpa using this
    have hcond : (List.take w.length s).map canonicalize = w.map canonicalize ∧
        w.length ≤ s.length := by
      rw [← hlen, List.take_length]
      exact ⟨h, Nat.le_refl _⟩
    refine ⟨MatchState.mk (pos + w.length) (s.drop w.length) c1 c2 c3, ?_, ?_⟩
    · simp only []
      rw [if_pos hcond]
      exact List.mem_singleton_self _
    · simp [hlen]

theorem matchAt_stopRe_succ (pos : Nat) (s : JSString) : matchAt stopRe (pos + 1) s = none := by
  simp [matchAt, stopRe, seq, bos]

theorem matchAt_stopRe_zero (s : JSString) :
    (matchAt stopRe 0 s).isSome = true ↔ ∃ w, w ∈ stopWords ∧ equalsIgnoreCase s w := by
  have hne : (matchAt stopRe 0 s).isSome = true ↔
      ∃ y, y ∈ stopRe { pos := 0, rest := s, cap1 := none, cap2 := none, cap3 := none } := by
    unfold matchAt
    cases stopRe { pos := 0, rest := s, cap1 := none, cap2 := none, cap3 := none } with
    | nil => simp
    | cons a t => simp
  rw [hne]
  constructor
  · rintro ⟨y, hy⟩
    obtain ⟨z, hz, hy⟩ := mem_seq.1 hy
    simp only [bos, if_true, List.mem_singleton] at hz
    subst hz
    obtain ⟨z, hz, hy⟩ := mem_seq.1 hy
    obtain ⟨z0, hz0, rfl⟩ := mem_group hz
    obtain ⟨w, hw, hz0⟩ := mem_wordsI.1 hz0
    refine ⟨w, hw, (wordI_whole_iff w s 0 none none none).1 ⟨z0, hz0, ?_⟩⟩
    unfold eos at hy
    by_cases he : (z0.setCap 1 (List.take (z0.pos - 0) s)).rest.isEmpty = true
    · have : (z0.setCap 1 (List.take (z0.pos - 0) s)).rest = z0.rest := rfl
      rw [this] at he
      simpa using he
    · simp only [] at hy
      rw [if_neg he] at hy
      simp at hy
  · rintro ⟨w, hw, he⟩
    obtain ⟨y, hy, hr⟩ := (wordI_whole_iff w s 0 none none none).2 he
    refine ⟨y.setCap 1 (s.take (y.pos - 0)),
      mem_seq.2 ⟨{ pos := 0, rest := s, cap1 := none, cap2 := none, cap3 := none }, ?_,
        mem_seq.2 ⟨y.setCap 1 (s.take (y.pos - 0)), ?_, ?_⟩⟩⟩
    · simp [bos]
    · simp only [group, List.mem_map]
      exact ⟨y, mem_wordsI.2 ⟨w, hw, hy⟩, rfl⟩
    · have hr1 : (y.setCap 1 (List.take (y.pos - 0) s)).rest = [] := hr
      unfold eos
      rw [hr1]
      simp

/-- The stoplist test succeeds exactly on the strings that equal one of the eleven words
up to the case of letters. -/
theorem stopRe_isSome_iff (s : JSString) :
    (jsMatch stopRe s).isSome = true ↔ ∃ w, w ∈ stopWords ∧ equalsIgnoreCase s w := by
  rw [← matchAt_stopRe_zero]
  unfold jsMatch
  cases s with
  | nil => simp [execFrom]
  | cons c r =>
    unfold execFrom
    cases hm : matchAt stopRe 0 (c :: r) with
    | some y => simp
    | none =>
      simp only [Option.isSome_none, Bool.false_eq_true, iff_false, Bool.not_eq_true,
        Option.not_isSome, Option.isNone_iff_eq_none]
      have hnone : ∀ (t : JSString) (pos : Nat), execFrom stopRe (pos + 1) t = none := by
        intro t
        induction t with
        | nil => intro pos; simp [execFrom, matchAt_stopRe_succ]
        | cons a t ih =>
          intro pos
          unfold execFrom
          rw [matchAt_stopRe_succ]
          exact ih (pos + 1)
      exact hnone r 0

/-- The filter of line 87, read off the code. -/
theorem acceptName_iff (n : JSString) :
    acceptName n = true ↔ 2 < n.length ∧ ¬ ∃ w, w ∈ stopWords ∧ equalsIgnoreCase n w := by
  unfold acceptName
  rw [← stopRe_isSome_iff]
  cases jsMatch stopRe n <;> simp

/-! ## The document-level fallback -/

theorem foldl_pushRaw : ∀ (l : List (Nat × JSString)) (data : List Record),
    (∀ il ∈ l, 0 < il.2.length) →
      l.foldl pushRaw data = data ++ l.map (fun il => Record.fallback (il.1 + 1) il.2)
  | [], data, _ => by simp
  | a :: t, data, h => by
    have ha : 0 < a.2.length := h a (List.mem_cons_self _ _)
    rw [List.foldl_cons, foldl_pushRaw t _ (fun il hil => h il (List.mem_cons_of_mem _ hil))]
    simp [pushRaw, ha]

/-- The two ways `parseBloodReport` returns: the scanned records when there are any, one raw
row per prepared line otherwise. -/
theorem parseBloodReport_cases (text : JSString) :
    (scanLines (prepareLines text) ≠ [] ∧
        parseBloodReport text = scanLines (prepareLines text)) ∨
      (scanLines (prepareLines text) = [] ∧
        parseBloodReport text =
          (prepareLines text).enum.map (fun il => Record.fallback (il.1 + 1) il.2)) := by
  by_cases hs : scanLines (prepareLines text) = []
  · right
    refine ⟨hs, ?_⟩
    have hraw : (prepareLines text).enum.foldl pushRaw [] =
        [] ++ (prepareLines text).enum.map (fun il => Record.fallback (il.1 + 1) il.2) :=
      foldl_pushRaw _ _ (fun il hil => (prepareLines_spec (List.snd_mem_of_mem_enum hil)).2)
    simp only [parseBloodReport, hs, List.length_nil, if_true]
    rw [hraw, List.nil_append]
  · left
    refine ⟨hs, ?_⟩
    have hlen : ¬ (scanLines (prepareLines text)).length = 0 := by
      intro h0
      exact hs (List.length_eq_zero.1 h0)
    simp only [parseBloodReport, hlen, if_false]

/-- Every record of the scan is a structured row. -/
theorem scanLines_structured {lines : List JSString} {r : Record} (h : r ∈ scanLines lines) :
    ∃ n v u k, r = Record.structured n v u k := by
  obtain ⟨il, -, h | ⟨nl, vm, -, -, -, -, h⟩⟩ := mem_scanLines h
  · obtain ⟨m, -, hm⟩ := mem_patternPass h
    exact ⟨_, _, _, _, (mem_pushMatch hm).2⟩
  · exact ⟨_, _, _, _, h⟩

/-- A structured row of the output is a record of the scan. -/
theorem structured_mem_scan {text n v u : JSString} {k : Nat}
    (h : Record.structured n v u k ∈ parseBloodReport text) :
    Record.structured n v u k ∈ scanLines (prepareLines text) := by
  rcases parseBloodReport_cases text with ⟨-, he⟩ | ⟨-, he⟩
  · rw [he] at h; exact h
  · rw [he] at h
    simp at h

/-! ## The first (reported) match of greedy pieces -/

theorem some_or_eq {α : Type} (a : α) (b : Option α) : (some a).or b = some a := rfl

theorem greedyEnds_head {p : Nat → Bool} :
    ∀ (seg rest : JSString) (pos : Nat), (∀ c ∈ seg, p c = true) →
      (∀ c, rest.head? = some c → p c = false) →
      (greedyEnds p (seg ++ rest) pos).head? = some (pos + seg.length, rest)
  | [], [], pos, _, _ => by simp [greedyEnds]
  | [], c :: r, pos, _, hb => by
    have hc : p c = false := hb c rfl
    simp [greedyEnds, hc]
  | a :: seg, rest, pos, hs, hb => by
    have ha : p a = true := hs a (List.mem_cons_self _ _)
    have ih := greedyEnds_head seg rest (pos + 1)
      (fun c hc => hs c (List.mem_cons_of_mem _ hc)) hb
    simp only [List.cons_append, greedyEnds, ha, if_true, List.head?_append, List.append_eq,
      ih, List.length_cons, some_or_eq]
    have e : pos + 1 + seg.length = pos + (seg.length + 1) := by omega
    rw [e]

theorem star_head (p : Nat → Bool) (pos : Nat) (seg rest : JSString)
    (c1 c2 c3 : Option JSString) (hs : ∀ c ∈ seg, p c = true)
    (hb : ∀ c, rest.head? = some c → p c = false) :
    (star p (MatchState.mk pos (seg ++ rest) c1 c2 c3)).head? =
      some (MatchState.mk (pos + seg.length) rest c1 c2 c3) := by
  simp only [star, List.head?_map, greedyEnds_head seg rest pos hs hb, Option.map_some']

theorem plus_head (p : Nat → Bool) (pos : Nat) (seg rest : JSString)
    (c1 c2 c3 : Option JSString) (hne : seg ≠ []) (hs : ∀ c ∈ seg, p c = true)
    (hb : ∀ c, rest.head? = some c → p c = false) :
    (plus p (MatchState.mk pos (seg ++ rest) c1 c2 c3)).head? =
      some (MatchState.mk (pos + seg.length) rest c1 c2 c3) := by
  cases seg with
  | nil => exact absurd rfl hne
  | cons a t =>
    have ha : p a = true := hs a (List.mem_cons_self _ _)
    have ht := star_head p (pos + 1) t rest c1 c2 c3
      (fun c hc => hs c (List.mem_cons_of_mem _ hc)) hb
    simp only [plus, seq, cls, List.cons_append, ha, if_true, List.flatMap_cons,
      List.flatMap_nil, List.append_nil, ht, List.length_cons]
    have e : pos + 1 + t.length = pos + (t.length + 1) := by omega
    rw [e]

theorem plus_eq_nil (p : Nat → Bool) (x : MatchState)
    (hb : ∀ c, x.rest.head? = some c → p c = false) : plus p x = [] := by
  unfold plus seq cls
  cases hx : x.rest with
  | nil => simp
  | cons c r =>
    have hc : p c = false := hb c (by rw [hx]; rfl)
    simp [hc]

theorem head_seq {m n : Matcher} {x z y : MatchState} (h1 : (m x).head? = some z)
    (h2 : (n z).head? = some y) : (seq m n x).head? = some y := by
  unfold seq
  cases hm : m x with
  | nil => rw [hm] at h1; exact Option.noConfusion h1
  | cons a t =>
    rw [hm] at h1
    simp only [List.head?_cons, Option.some.injEq] at h1
    subst h1
    simp only [List.flatMap_cons, List.head?_append, h2, some_or_eq]

theorem head_group {k : Nat} {m : Matcher} {x z : MatchState} (h : (m x).head? = some z) :
    (group k m x).head? = some (z.setCap k (x.rest.take (z.pos - x.pos))) := by
  simp only [group, List.head?_map, h, Option.map_some']

theorem head_opt {m : Matcher} {x y : MatchState} (h : (m x).head? = some y) :
    (opt m x).head? = some y := by
  simp only [opt, List.head?_append, h, some_or_eq]

theorem head_opt_skip {m : Matcher} {x : MatchState} (h : m x = []) :
    (opt m x).head? = some x := by
  simp [opt, h]

/-- The match of `/([\d.]+)\s*([a-zA-Z\/%]+)?/` on a line that starts with a run `n` of
`[\d.]`, then white space `w`, then a run `u` of unit characters (possibly empty), where no
character that follows extends these runs. -/
theorem valueRe_head (n w u t : JSString) (hn : n ≠ [])
    (hnv : ∀ c ∈ n, isValueChar c = true) (hws : ∀ c ∈ w, isSpace c = true)
    (huu : ∀ c ∈ u, isUnitChar c = true)
    (ht : ∀ c, t.head? = some c → isUnitChar c = false ∧
      (u = [] → isSpace c = false ∧ (w = [] → isValueChar c = false))) :
    ∃ vm, jsMatch valueRe (n ++ (w ++ (u ++ t))) = some vm ∧ vm.cap1 = some n ∧
      orEmpty vm.cap2 = u := by
  have hbu : ∀ c, (u ++ t).head? = some c → isSpace c = false := by
    intro c hc
    cases u with
    | nil => exact ((ht c (by simpa using hc)).2 rfl).1
    | cons a u1 =>
      simp only [List.cons_append, List.head?_cons, Option.some.injEq] at hc
      subst hc
      exact isUnitChar_not_space (huu _ (List.mem_cons_self _ _))
  have hbw : ∀ c, (w ++ (u ++ t)).head? = some c → isValueChar c = false := by
    intro c hc
    cases w with
    | nil =>
      cases u with
      | nil => exact ((ht c (by simpa using hc)).2 rfl).2 rfl
      | cons a u1 =>
        simp only [List.nil_append, List.cons_append, List.head?_cons,
          Option.some.injEq] at hc
        subst hc
        exact isUnitChar_not_valueChar (huu _ (List.mem_cons_self _ _))
    | cons a w1 =>
      simp only [List.cons_append, List.head?_cons, Option.some.injEq] at hc
      subst hc
      exact isSpace_not_valueChar (hws _ (List.mem_cons_self _ _))
  have hbt : ∀ c, t.head? = some c → isUnitChar c = false := fun c hc => (ht c hc).1
  have h1 := head_group (k := 1)
    (plus_head isValueChar 0 n (w ++ (u ++ t)) none none none hn hnv hbw)
  have h2 := star_head isSpace (0 + n.length) w (u ++ t) (some n) none none hws hbu
  have hcap : (MatchState.mk (0 + n.length) (w ++ (u ++ t)) none none none).setCap 1
      ((MatchState.mk 0 (n ++ (w ++ (u ++ t))) none none none).rest.take
        ((MatchState.mk (0 + n.length) (w ++ (u ++ t)) none none none).pos -
          (MatchState.mk 0 (n ++ (w ++ (u ++ t))) none none none).pos)) =
      MatchState.mk (0 + n.length) (w ++ (u ++ t)) (some n) none none := by
    simp [MatchState.setCap]
  rw [hcap] at h1
  have hexec : ∀ vm, (valueRe (MatchState.mk 0 (n ++ (w ++ (u ++ t))) none none none)).head? =
      some vm → jsMatch valueRe (n ++ (w ++ (u ++ t))) = some vm := by
    intro vm hvm
    have hm : matchAt valueRe 0 (n ++ (w ++ (u ++ t))) = some vm := hvm
    unfold jsMatch
    cases n with
    | nil => exact absurd rfl hn
    | cons a n1 =>
      simp only [List.cons_append] at hm ⊢
      unfold execFrom
      rw [hm]
  by_cases hu : u = []
  · subst hu
    have h3 : (opt (group 2 (plus isUnitChar))
        (MatchState.mk (0 + n.length + w.length) ([] ++ t) (some n) none none)).head? =
        some (MatchState.mk (0 + n.length + w.length) ([] ++ t) (some n) none none) := by
      apply head_opt_skip
      unfold group
      rw [plus_eq_nil isUnitChar _ hbt]
      rfl
    refine ⟨_, hexec _ (head_seq h1 (head_seq h2 h3)), rfl, rfl⟩
  · have h3 := head_opt (head_group (k := 2)
      (plus_head isUnitChar (0 + n.length + w.length) u t (some n) none none hu huu hbt))
    refine ⟨_, hexec _ (head_seq h1 (head_seq h2 h3)), rfl, ?_⟩
    have hlen : u.length > 0 := List.length_pos.2 hu
    simp [MatchState.setCap, orEmpty, hlen]

/-! ## Records of the pattern pass and of the scan -/

/-- What every record of the pattern pass of one line looks like. -/
theorem patternPass_record {index : Nat} {line n v u : JSString} {k : Nat}
    (h : Record.structured n v u k ∈ patternPass index line []) :
    k = index + 1 ∧ trim n = n ∧ 2 < n.length ∧
      (¬ ∃ w, w ∈ stopWords ∧ equalsIgnoreCase n w) ∧
      v ≠ [] ∧ ∀ c ∈ v, isValueChar c = true := by
  obtain ⟨m, hm, hr⟩ := mem_patternPass h
  obtain ⟨hacc, heq⟩ := mem_pushMatch hr
  obtain ⟨-, ⟨val, hval, hne, hall⟩, -⟩ := matchAll_testPattern hm
  injection heq with e1 e2 e3 e4
  have hv : v = val := by
    rw [e2, hval]
    exact trim_valueRun hall
  obtain ⟨hlen, hstop⟩ := (acceptName_iff _).1 hacc
  rw [← e1] at hlen hstop
  refine ⟨e4, ?_, hlen, hstop, ?_, ?_⟩
  · rw [e1]; exact trim_idem _
  · rw [hv]; exact hne
  · rw [hv]; exact hall

/-- What every record of the scan of a prepared document looks like. -/
theorem scan_record {text n v u : JSString} {k : Nat}
    (h : Record.structured n v u k ∈ scanLines (prepareLines text)) :
    trim n = n ∧ 2 < n.length ∧ v ≠ [] ∧ ∀ c ∈ v, isValueChar c = true := by
  obtain ⟨il, hil, h | ⟨nl, vm, h3, -, -, hvm, heq⟩⟩ := mem_scanLines h
  · obtain ⟨-, a, b, -, c, d⟩ := patternPass_record h
    exact ⟨a, b, c, d⟩
  · injection heq with e1 e2 e3 e4
    obtain ⟨p, r, hmem⟩ := mem_of_execFrom _ _ hvm
    obtain ⟨val, hval, hne, hall⟩ := mem_valueRe hmem
    have hv : v = val := by rw [e2, hval]; rfl
    refine ⟨?_, ?_, ?_, ?_⟩
    · rw [e1]; exact (prepareLines_spec (List.snd_mem_of_mem_enum hil)).1
    · rw [e1]; omega
    · rw [hv]; exact hne
    · rw [hv]; exact hall

theorem valueChar_cases {c : Nat} (h : isValueChar c = true) : isDigit c = true ∨ c = 46 := by
  simpa [isValueChar] using h

/-- The scan of a one-line document is the pattern pass of that line. -/
theorem scanLines_single (line : JSString) :
    scanLines [line] = patternPass 0 line [] := by
  have h : scanLines [line] = headerCheck [line] 0 line (patternPass 0 line []) := rfl
  rw [h]
  rcases headerCheck_cases [line] 0 line (patternPass 0 line []) with hc | hc
  · exact hc
  · obtain ⟨nl, vm, -, -, -, hget, -⟩ := hc
    simp at hget

/-! ## The claims -/

/-- C1, as it stands, fails: on the line "Hemoglobin 13.5 g/dL Glucose 90 mg/dL" the output
has four records, not the two records of the claim. -/
theorem C1_counterexample :
    (parseBloodReport (utf16 "Hemoglobin 13.5 g/dL Glucose 90 mg/dL")).length = 4 ∧
    parseBloodReport (utf16 "Hemoglobin 13.5 g/dL Glucose 90 mg/dL") ≠
      [Record.structured (utf16 "Hemoglobin") (utf16 "13.5") (utf16 "g/dL") 1,
       Record.structured (utf16 "Glucose") (utf16 "90") (utf16 "mg/dL") 1] := by
  decide

/-- C1, amended: the structured records of a one-line document are, for pattern A and then
for pattern B, at most one record per match of that pattern, in match order; on
"Hemoglobin 13.5 g/dL Glucose 90 mg/dL" that is four records, Hemoglobin and Glucose once
for each pattern, all with Row Number 1. -/
theorem C1_one_record_per_match_and_pattern :
    (∀ line : JSString, scanLines [line] =
      (matchAll patternA line).flatMap (pushMatch 0 []) ++
        (matchAll patternB line).flatMap (pushMatch 0 [])) ∧
    (∀ (index : Nat) (m : MatchState), (pushMatch index [] m).length ≤ 1) ∧
    parseBloodReport (utf16 "Hemoglobin 13.5 g/dL Glucose 90 mg/dL") =
      [Record.structured (utf16 "Hemoglobin") (utf16 "13.5") (utf16 "g/dL") 1,
       Record.structured (utf16 "Glucose") (utf16 "90") (utf16 "mg/dL") 1,
       Record.structured (utf16 "Hemoglobin") (utf16 "13.5") (utf16 "g/dL") 1,
       Record.structured (utf16 "Glucose") (utf16 "90") (utf16 "mg/dL") 1] := by
  refine ⟨?_, ?_, by decide⟩
  · intro line
    rw [scanLines_single, patternPass_eq, List.nil_append]
  · intro index m
    unfold pushMatch
    by_cases h : acceptName (trim (capOr m.cap1)) = true <;> simp [h]

/-- C2, as it stands, fails: in "Glucose 90\nCholesterol\n190 mg/dL" two records exist when
the block is evaluated for the second line, and it still emits a record for that line. -/
theorem C2_counterexample :
    (patternPass 1 (utf16 "Cholesterol")
      [Record.structured (utf16 "Glucose") (utf16 "90") [] 1,
       Record.structured (utf16 "Glucose") (utf16 "90") [] 1]).length = 2 ∧
    headerCheck [utf16 "Glucose 90", utf16 "Cholesterol", utf16 "190 mg/dL"] 1
        (utf16 "Cholesterol")
        [Record.structured (utf16 "Glucose") (utf16 "90") [] 1,
         Record.structured (utf16 "Glucose") (utf16 "90") [] 1] =
      [Record.structured (utf16 "Glucose") (utf16 "90") [] 1,
       Record.structured (utf16 "Glucose") (utf16 "90") [] 1,
       Record.structured (utf16 "Cholesterol") (utf16 "190") (utf16 "mg/dL") 2] ∧
    parseBloodReport (utf16 "Glucose 90\nCholesterol\n190 mg/dL") =
      [Record.structured (utf16 "Glucose") (utf16 "90") [] 1,
       Record.structured (utf16 "Glucose") (utf16 "90") [] 1,
       Record.structured (utf16 "Cholesterol") (utf16 "190") (utf16 "mg/dL") 2] := by
  decide

/-- C2, amended: the header / next-line block emits a record for a line only if, when it
is evaluated, no record has been accumulated or the line contains no digit; moreover the
line is longer than 3 and shorter than 50 and a next line exists that contains a digit or a
point. -/
theorem C2_header_guard (lines : List JSString) (index : Nat) (line : JSString)
    (data : List Record) (h : headerCheck lines index line data ≠ data) :
    (data.length = 0 ∨ ∀ c ∈ line, isDigit c = false) ∧
      3 < line.length ∧ line.length < 50 ∧
      ∃ nl, lines.get? (index + 1) = some nl ∧ ∃ c ∈ nl, isValueChar c = true := by
  rcases headerCheck_cases lines index line data with hc | hc
  · exact absurd hc h
  · obtain ⟨nl, vm, h1, h2, h3, h4, h5, -, -⟩ := hc
    refine ⟨?_, h2, h3, nl, h4, (numberRe_isSome_iff nl).1 h5⟩
    rcases h1 with h1 | h1
    · exact Or.inl h1
    · exact Or.inr ((digitRe_none_iff line).1 h1)

/-- C2, amended, at the second line of "Glucose 90\nCholesterol\n190 mg/dL". -/
theorem C2_header_guard_witness :
    headerCheck [utf16 "Glucose 90", utf16 "Cholesterol", utf16 "190 mg/dL"] 1
        (utf16 "Cholesterol") [Record.structured (utf16 "Glucose") (utf16 "90") [] 1] ≠
      [Record.structured (utf16 "Glucose") (utf16 "90") [] 1] ∧
    (([Record.structured (utf16 "Glucose") (utf16 "90") [] 1].length = 0 ∨
        ∀ c ∈ utf16 "Cholesterol", isDigit c = false) ∧
      3 < (utf16 "Cholesterol").length ∧ (utf16 "Cholesterol").length < 50 ∧
      ∃ nl, [utf16 "Glucose 90", utf16 "Cholesterol", utf16 "190 mg/dL"].get? (1 + 1) =
        some nl ∧ ∃ c ∈ nl, isValueChar c = true) :=
  ⟨by decide, C2_header_guard _ 1 _ _ (by decide)⟩

/-- C3, as it stands, fails: the first line of "1234\n5" contains digits and the header /
next-line block emits a record with that line as Test Name. -/
theorem C3_counterexample :
    (∃ c ∈ utf16 "1234", isDigit c = true) ∧
    headerCheck [utf16 "1234", utf16 "5"] 0 (utf16 "1234")
        (patternPass 0 (utf16 "1234") []) =
      [Record.structured (utf16 "1234") (utf16 "5") [] 1] ∧
    parseBloodReport (utf16 "1234\n5") =
      [Record.structured (utf16 "1234") (utf16 "5") [] 1] := by
  decide

/-- C3, amended: for a line that contains a digit, the header / next-line block emits no
record whenever a structured record has already been accumulated. -/
theorem C3_digit_line_after_first_record (lines : List JSString) (index : Nat)
    (line : JSString) (data : List Record) (hd : ∃ c ∈ line, isDigit c = true)
    (hne : data ≠ []) : headerCheck lines index line data = data := by
  rcases headerCheck_cases lines index line data with hc | hc
  · exact hc
  · obtain ⟨nl, vm, h1, -⟩ := hc
    exfalso
    rcases h1 with h1 | h1
    · exact hne (List.length_eq_zero.1 h1)
    · obtain ⟨c, hc, hdc⟩ := hd
      have := (digitRe_none_iff line).1 h1 c hc
      rw [hdc] at this
      exact Bool.noConfusion this

/-- C3, amended, at the line "Glucose 90" followed by "190 mg/dL", after the record of the
pattern pass. -/
theorem C3_digit_line_after_first_record_witness :
    (∃ c ∈ utf16 "Glucose 90", isDigit c = true) ∧
    [Record.structured (utf16 "Glucose") (utf16 "90") [] 1] ≠ [] ∧
    headerCheck [utf16 "Glucose 90", utf16 "190 mg/dL"] 0 (utf16 "Glucose 90")
        [Record.structured (utf16 "Glucose") (utf16 "90") [] 1] =
      [Record.structured (utf16 "Glucose") (utf16 "90") [] 1] :=
  ⟨by decide, by decide,
    C3_digit_line_after_first_record _ 0 _ _ (by decide) (by decide)⟩

/-- C4, as it stands, fails: "Patient\n42" yields a structured record whose Test Name is
the stoplist word "Patient", emitted by the header / next-line block. -/
theorem C4_counterexample :
    parseBloodReport (utf16 "Patient\n42") =
      [Record.structured (utf16 "Patient") (utf16 "42") [] 1] ∧
    patternPass 0 (utf16 "Patient") [] = [] ∧
    utf16 "Patient" ∈ stopWords ∧
    equalsIgnoreCase (utf16 "Patient") (utf16 "Patient") := by
  decide

/-- C4, amended: the Test Name of every structured record of the output is trimmed,
non-empty and longer than 2; the Test Name of every record emitted by the pattern pass is,
in addition, not equal up to case to any of the eleven stoplist words. -/
theorem C4_test_name (text : JSString) (index : Nat) (line n v u : JSString) (k : Nat) :
    (Record.structured n v u k ∈ parseBloodReport text →
      trim n = n ∧ n ≠ [] ∧ 2 < n.length) ∧
    (Record.structured n v u k ∈ patternPass index line [] →
      ¬ ∃ w, w ∈ stopWords ∧ equalsIgnoreCase n w) := by
  constructor
  · intro h
    obtain ⟨a, b, -, -⟩ := scan_record (structured_mem_scan h)
    refine ⟨a, ?_, b⟩
    intro hn
    rw [hn] at b
    simp at b
  · intro h
    exact (patternPass_record h).2.2.2.1

/-- C4, amended, at the record of the one-line text "Glucose 90". -/
theorem C4_test_name_witness :
    (Record.structured (utf16 "Glucose") (utf16 "90") [] 1 ∈
        parseBloodReport (utf16 "Glucose 90") ∧
      Record.structured (utf16 "Glucose") (utf16 "90") [] 1 ∈
        patternPass 0 (utf16 "Glucose 90") []) ∧
    (trim (utf16 "Glucose") = utf16 "Glucose" ∧ utf16 "Glucose" ≠ [] ∧
      2 < (utf16 "Glucose").length) ∧
    ¬ ∃ w, w ∈ stopWords ∧ equalsIgnoreCase (utf16 "Glucose") w :=
  ⟨by decide,
    (C4_test_name (utf16 "Glucose 90") 0 (utf16 "Glucose 90") (utf16 "Glucose") (utf16 "90")
      [] 1).1 (by decide),
    (C4_test_name (utf16 "Glucose 90") 0 (utf16 "Glucose 90") (utf16 "Glucose") (utf16 "90")
      [] 1).2 (by decide)⟩

/-- C5, as it stands, fails: "Glucose 1.2.3" yields the Value "1.2.3", which has two
decimal points. -/
theorem C5_counterexample :
    parseBloodReport (utf16 "Glucose 1.2.3") =
      [Record.structured (utf16 "Glucose") (utf16 "1.2.3") [] 1,
       Record.structured (utf16 "Glucose") (utf16 "1.2.3") [] 1] ∧
    (utf16 "1.2.3").count 46 = 2 := by
  decide

/-- C5, amended: the Value of every structured record of the output is a non-empty string
of decimal digits and points (any number of points). -/
theorem C5_value_chars (text n v u : JSString) (k : Nat)
    (h : Record.structured n v u k ∈ parseBloodReport text) :
    v ≠ [] ∧ ∀ c ∈ v, isDigit c = true ∨ c = 46 := by
  obtain ⟨-, -, hne, hall⟩ := scan_record (structured_mem_scan h)
  exact ⟨hne, fun c hc => valueChar_cases (hall c hc)⟩

/-- C5, amended, at the record of "Glucose 1.2.3". -/
theorem C5_value_chars_witness :
    Record.structured (utf16 "Glucose") (utf16 "1.2.3") [] 1 ∈
        parseBloodReport (utf16 "Glucose 1.2.3") ∧
    (utf16 "1.2.3" ≠ [] ∧ ∀ c ∈ utf16 "1.2.3", isDigit c = true ∨ c = 46) :=
  ⟨by decide,
    C5_value_chars (utf16 "Glucose 1.2.3") (utf16 "Glucose") (utf16 "1.2.3") [] 1
      (by decide)⟩

/-- C6, as it stands, fails: on the line "Glucose ." both patterns match with the value
token ".", which contains no digit, and the pattern pass emits records with that Value. -/
theorem C6_counterexample :
    patternPass 0 (utf16 "Glucose .") [] =
      [Record.structured (utf16 "Glucose") (utf16 ".") [] 1,
       Record.structured (utf16 "Glucose") (utf16 ".") [] 1] ∧
    (∀ c ∈ utf16 ".", isDigit c = false) ∧
    parseBloodReport (utf16 "Glucose .") =
      [Record.structured (utf16 "Glucose") (utf16 ".") [] 1,
       Record.structured (utf16 "Glucose") (utf16 ".") [] 1] := by
  decide

/-- C6, amended: every record emitted by the pattern pass of a line has the Row Number of
that line and a Value that contains at least one decimal digit or point. -/
theorem C6_pattern_value (index : Nat) (line n v u : JSString) (k : Nat)
    (h : Record.structured n v u k ∈ patternPass index line []) :
    k = index + 1 ∧ ∃ c ∈ v, isDigit c = true ∨ c = 46 := by
  obtain ⟨hk, -, -, -, hne, hall⟩ := patternPass_record h
  refine ⟨hk, ?_⟩
  cases v with
  | nil => exact absurd rfl hne
  | cons c t => exact ⟨c, List.mem_cons_self _ _, valueChar_cases (hall c (List.mem_cons_self _ _))⟩

/-- C6, amended, at the line "Glucose .". -/
theorem C6_pattern_value_witness :
    Record.structured (utf16 "Glucose") (utf16 ".") [] 1 ∈
        patternPass 0 (utf16 "Glucose .") [] ∧
    (1 = 0 + 1 ∧ ∃ c ∈ utf16 ".", isDigit c = true ∨ c = 46) :=
  ⟨by decide,
    C6_pattern_value 0 (utf16 "Glucose .") (utf16 "Glucose") (utf16 ".") [] 1 (by decide)⟩

/-- C7: any two records of one output have the same key set, which is either
Test Name, Value, Unit, Row Number or Line Number, Content. -/
theorem C7_shape_uniformity (text : JSString) (r s : Record)
    (hr : r ∈ parseBloodReport text) (hs : s ∈ parseBloodReport text) :
    r.keys = s.keys ∧
      (r.keys = ["Test Name", "Value", "Unit", "Row Number"] ∨
        r.keys = ["Line Number", "Content"]) := by
  rcases parseBloodReport_cases text with ⟨-, he⟩ | ⟨-, he⟩
  · rw [he] at hr hs
    obtain ⟨n, v, u, k, rfl⟩ := scanLines_structured hr
    obtain ⟨n1, v1, u1, k1, rfl⟩ := scanLines_structured hs
    exact ⟨rfl, Or.inl rfl⟩
  · rw [he] at hr hs
    obtain ⟨a, -, rfl⟩ := List.mem_map.1 hr
    obtain ⟨b, -, rfl⟩ := List.mem_map.1 hs
    exact ⟨rfl, Or.inr rfl⟩

/-- C7 at two records of the output for "Hemoglobin 13.5 g/dL Glucose 90 mg/dL". -/
theorem C7_shape_uniformity_witness :
    (Record.structured (utf16 "Hemoglobin") (utf16 "13.5") (utf16 "g/dL") 1 ∈
        parseBloodReport (utf16 "Hemoglobin 13.5 g/dL Glucose 90 mg/dL") ∧
      Record.structured (utf16 "Glucose") (utf16 "90") (utf16 "mg/dL") 1 ∈
        parseBloodReport (utf16 "Hemoglobin 13.5 g/dL Glucose 90 mg/dL")) ∧
    ((Record.structured (utf16 "Hemoglobin") (utf16 "13.5") (utf16 "g/dL") 1).keys =
        (Record.structured (utf16 "Glucose") (utf16 "90") (utf16 "mg/dL") 1).keys ∧
      ((Record.structured (utf16 "Hemoglobin") (utf16 "13.5") (utf16 "g/dL") 1).keys =
          ["Test Name", "Value", "Unit", "Row Number"] ∨
        (Record.structured (utf16 "Hemoglobin") (utf16 "13.5") (utf16 "g/dL") 1).keys =
          ["Line Number", "Content"])) :=
  ⟨by decide,
    C7_shape_uniformity (utf16 "Hemoglobin 13.5 g/dL Glucose 90 mg/dL") _ _
      (by decide) (by decide)⟩

/-- C8: when the scan of the lines emits no structured record, the output is one raw row
per prepared line, in order, the i-th carrying Line Number i and the i-th line as Content;
for "hello\nworld" these are the rows (1, "hello") and (2, "world"). -/
theorem C8_document_fallback (text : JSString)
    (h : scanLines (prepareLines text) = []) :
    parseBloodReport text =
        (prepareLines text).enum.map (fun il => Record.fallback (il.1 + 1) il.2) ∧
      (parseBloodReport text).length = (prepareLines text).length ∧
      parseBloodReport (utf16 "hello\nworld") =
        [Record.fallback 1 (utf16 "hello"), Record.fallback 2 (utf16 "world")] := by
  rcases parseBloodReport_cases text with ⟨hne, -⟩ | ⟨-, he⟩
  · exact absurd h hne
  · refine ⟨he, ?_, by decide⟩
    rw [he]
    simp

/-- C8 at the text "hello\nworld". -/
theorem C8_document_fallback_witness :
    scanLines (prepareLines (utf16 "hello\nworld")) = [] ∧
    (parseBloodReport (utf16 "hello\nworld") =
        (prepareLines (utf16 "hello\nworld")).enum.map
          (fun il => Record.fallback (il.1 + 1) il.2) ∧
      (parseBloodReport (utf16 "hello\nworld")).length =
        (prepareLines (utf16 "hello\nworld")).length ∧
      parseBloodReport (utf16 "hello\nworld") =
        [Record.fallback 1 (utf16 "hello"), Record.fallback 2 (utf16 "world")]) :=
  ⟨by decide, C8_document_fallback (utf16 "hello\nworld") (by decide)⟩

/-- C9: for a document of two prepared lines `h` and `v`, neither matched by a test
pattern, where `h` has no digit and a length strictly between 3 and 50, and `v` starts with
a numeric token `n`, then white space `w`, then a unit token `u` (possibly empty) that the
rest `t` of the line does not extend, the output is the single record with Test Name `h`,
Value `n`, Unit `u` and Row Number 1. -/
theorem C9_header_next_line (text h v n w u t : JSString)
    (hlines : prepareLines text = [h, v])
    (hpat : matchAll patternA h = [] ∧ matchAll patternB h = [] ∧
      matchAll patternA v = [] ∧ matchAll patternB v = [])
    (_hdig : ∀ c ∈ h, isDigit c = false)
    (hlen : 3 < h.length ∧ h.length < 50)
    (hv : v = n ++ (w ++ (u ++ t))) (hn : n ≠ [])
    (hnv : ∀ c ∈ n, isValueChar c = true) (hws : ∀ c ∈ w, isSpace c = true)
    (huu : ∀ c ∈ u, isUnitChar c = true)
    (ht : ∀ c, t.head? = some c → isUnitChar c = false ∧
      (u = [] → isSpace c = false ∧ (w = [] → isValueChar c = false))) :
    parseBloodReport text = [Record.structured h n u 1] := by
  obtain ⟨vm, hvm, hc1, hc2⟩ := valueRe_head n w u t hn hnv hws huu ht
  rw [← hv] at hvm
  have hp0 : patternPass 0 h [] = [] := by
    rw [patternPass_eq, hpat.1, hpat.2.1]; rfl
  have hvlen : 0 < v.length := by
    rw [hv]
    cases n with
    | nil => exact absurd rfl hn
    | cons a n1 => simp
  have hnum : (jsMatch numberRe v).isSome = true := by
    rw [numberRe_isSome_iff, hv]
    cases n with
    | nil => exact absurd rfl hn
    | cons a n1 =>
      exact ⟨a, by simp, hnv a (List.mem_cons_self _ _)⟩
  have hh0 : headerCheck [h, v] 0 h [] = [Record.structured h n u 1] := by
    have hget : [h, v].get? (0 + 1) = some v := rfl
    have hcap : capOr vm.cap1 = n := by rw [hc1]; rfl
    simp only [headerCheck, List.length_nil, decide_True, Bool.true_or, if_true, hlen.1,
      hlen.2, Bool.and_self, hget, hvlen, gt_iff_lt, hnum, hvm, hcap, hc2, List.nil_append]
  have hp1 : patternPass 1 v [Record.structured h n u 1] = [Record.structured h n u 1] := by
    rw [patternPass_eq, hpat.2.2.1, hpat.2.2.2]; rfl
  have hh1 : headerCheck [h, v] 1 v [Record.structured h n u 1] =
      [Record.structured h n u 1] := by
    rcases headerCheck_cases [h, v] 1 v [Record.structured h n u 1] with hc | hc
    · exact hc
    · obtain ⟨nl, vm1, -, -, -, hget, -⟩ := hc
      simp at hget
  have hscan : scanLines [h, v] = [Record.structured h n u 1] := by
    have e : scanLines [h, v] =
        headerCheck [h, v] 1 v (patternPass 1 v (headerCheck [h, v] 0 h (patternPass 0 h []))) :=
      rfl
    rw [e, hp0, hh0, hp1, hh1]
  rcases parseBloodReport_cases text with ⟨-, he⟩ | ⟨he, -⟩
  · rw [he, hlines, hscan]
  · rw [hlines, hscan] at he
    exact absurd he (by simp)

/-- C9 at the text "Cholesterol\n190 mg/dL": the output is the single record with Test
Name "Cholesterol", Value "190", Unit "mg/dL" and Row Number 1. -/
theorem C9_header_next_line_witness :
    (prepareLines (utf16 "Cholesterol\n190 mg/dL") =
        [utf16 "Cholesterol", utf16 "190 mg/dL"] ∧
      (matchAll patternA (utf16 "Cholesterol") = [] ∧
        matchAll patternB (utf16 "Cholesterol") = [] ∧
        matchAll patternA (utf16 "190 mg/dL") = [] ∧
        matchAll patternB (utf16 "190 mg/dL") = []) ∧
      (∀ c ∈ utf16 "Cholesterol", isDigit c = false) ∧
      (3 < (utf16 "Cholesterol").length ∧ (utf16 "Cholesterol").length < 50) ∧
      utf16 "190 mg/dL" = utf16 "190" ++ (utf16 " " ++ (utf16 "mg/dL" ++ [])) ∧
      utf16 "190" ≠ [] ∧
      (∀ c ∈ utf16 "190", isValueChar c = true) ∧
      (∀ c ∈ utf16 " ", isSpace c = true) ∧
      (∀ c ∈ utf16 "mg/dL", isUnitChar c = true)) ∧
    parseBloodReport (utf16 "Cholesterol\n190 mg/dL") =
      [Record.structured (utf16 "Cholesterol") (utf16 "190") (utf16 "mg/dL") 1] :=
  ⟨by decide,
    C9_header_next_line (utf16 "Cholesterol\n190 mg/dL") (utf16 "Cholesterol")
      (utf16 "190 mg/dL") (utf16 "190") (utf16 " ") (utf16 "mg/dL") []
      (by decide) (by decide) (by decide) (by decide) (by decide) (by decide) (by decide)
      (by decide) (by decide) (fun c hc => Option.noConfusion hc)⟩

/-- C10: a match of a test pattern emits no record exactly when its captured test name,
after trimming, has length at most 2 or equals one of the eleven stoplist words up to case
(the whole name, not a part of it); "Patient 42" therefore yields no structured record and
the output is the single raw row (1, "Patient 42"). -/
theorem C10_stoplist_rejection (index : Nat) (data : List Record) (m : MatchState) :
    (pushMatch index data m = data ↔
      ((trim (capOr m.cap1)).length ≤ 2 ∨
        ∃ w, w ∈ stopWords ∧ equalsIgnoreCase (trim (capOr m.cap1)) w)) ∧
    patternPass 0 (utf16 "Patient 42") [] = [] ∧
    parseBloodReport (utf16 "Patient 42") = [Record.fallback 1 (utf16 "Patient 42")] := by
  refine ⟨?_, by decide, by decide⟩
  have hacc := acceptName_iff (trim (capOr m.cap1))
  unfold pushMatch
  by_cases ha : acceptName (trim (capOr m.cap1)) = true
  · obtain ⟨h1, h2⟩ := hacc.1 ha
    simp only [ha, if_true, List.append_right_eq_self, List.cons_ne_nil, false_iff, not_or,
      not_le]
    exact ⟨h1, h2⟩
  · simp only [ha, Bool.false_eq_true, if_false, true_iff]
    by_contra hcon
    simp only [not_or, not_le] at hcon
    exact ha (hacc.2 hcon)

/-! ## Blank pieces and line splitting -/

theorem trim_eq_nil {s : JSString} (h : ∀ c ∈ s, isSpace c = true) : trim s = [] := by
  unfold trim
  have hd : s.dropWhile isSpace = [] := List.dropWhile_eq_nil_iff.2 h
  rw [hd]
  rfl

theorem prepareLines_eq_nil {text : JSString}
    (h : ∀ piece ∈ splitNewline text, ∀ c ∈ piece, isSpace c = true) :
    prepareLines text = [] := by
  unfold prepareLines
  rw [List.filter_eq_nil_iff]
  intro line hl
  obtain ⟨piece, hp, rfl⟩ := List.mem_map.1 hl
  rw [trim_eq_nil (h piece hp)]
  simp

theorem parseBloodReport_of_no_lines {text : JSString} (h : prepareLines text = []) :
    parseBloodReport text = [] := by
  simp [parseBloodReport, h, scanLines]

theorem splitNewline_ne_nil : ∀ s : JSString, splitNewline s ≠ []
  | [] => by simp [splitNewline]
  | c :: r => by
    unfold splitNewline
    by_cases hc : c = 10
    · simp [hc]
    · simp only [hc, if_false]
      cases splitNewline r <;> simp

/-- Splitting distributes over a newline. -/
theorem splitNewline_append : ∀ (a b : JSString),
    splitNewline (a ++ 10 :: b) = splitNewline a ++ splitNewline b
  | [], b => by simp [splitNewline]
  | c :: a, b => by
    have ih := splitNewline_append a b
    by_cases hc : c = 10
    · simp [splitNewline, hc, ih]
    · simp only [List.cons_append, splitNewline, hc, if_false, List.append_eq]
      cases hs : splitNewline a with
      | nil => exact absurd hs (splitNewline_ne_nil a)
      | cons l ls =>
        rw [ih, hs]
        rfl

theorem prepareLines_append (a b : JSString) :
    prepareLines (a ++ 10 :: b) = prepareLines a ++ prepareLines b := by
  simp [prepareLines, splitNewline_append]

theorem mem_of_mem_splitNewline : ∀ (s piece : JSString) (c : Nat),
    piece ∈ splitNewline s → c ∈ piece → c ∈ s
  | [], piece, c, hp, hc => by
    simp only [splitNewline, List.mem_singleton] at hp
    subst hp
    exact hc
  | a :: r, piece, c, hp, hc => by
    unfold splitNewline at hp
    by_cases ha : a = 10
    · simp only [ha, if_true, List.mem_cons] at hp
      rcases hp with hp | hp
      · subst hp
        simp at hc
      · exact List.mem_cons_of_mem _ (mem_of_mem_splitNewline r piece c hp hc)
    · simp only [ha, if_false] at hp
      cases hs : splitNewline r with
      | nil => exact absurd hs (splitNewline_ne_nil r)
      | cons l ls =>
        rw [hs] at hp
        simp only [List.mem_cons] at hp
        rcases hp with hp | hp
        · subst hp
          rcases List.mem_cons.1 hc with hc | hc
          · subst hc
            exact List.mem_cons_self _ _
          · exact List.mem_cons_of_mem _
              (mem_of_mem_splitNewline r l c (by rw [hs]; exact List.mem_cons_self _ _) hc)
        · exact List.mem_cons_of_mem _
            (mem_of_mem_splitNewline r piece c (by rw [hs]; exact List.mem_cons_of_mem _ hp) hc)

/-- The output is a function of the prepared lines. -/
theorem parseBloodReport_congr {t1 t2 : JSString} (h : prepareLines t1 = prepareLines t2) :
    parseBloodReport t1 = parseBloodReport t2 := by
  unfold parseBloodReport
  rw [h]

/-! ## The claims, continued -/

/-- C11: a text all of whose newline-separated pieces are empty or consist of white space
only yields the empty output; so does the empty text. -/
theorem C11_emptiness (text : JSString)
    (h : ∀ piece ∈ splitNewline text, ∀ c ∈ piece, isSpace c = true) :
    parseBloodReport text = [] ∧ parseBloodReport (utf16 "") = [] :=
  ⟨parseBloodReport_of_no_lines (prepareLines_eq_nil h), by decide⟩

/-- C11 at the text "   \n\n  ". -/
theorem C11_emptiness_witness :
    (∀ piece ∈ splitNewline (utf16 "   \n\n  "), ∀ c ∈ piece, isSpace c = true) ∧
    (parseBloodReport (utf16 "   \n\n  ") = [] ∧ parseBloodReport (utf16 "") = []) :=
  ⟨by decide, C11_emptiness (utf16 "   \n\n  ") (by decide)⟩

/-- C12: two texts with the same sequence of non-empty trimmed lines have the same output;
in particular a line of white space inserted between two lines changes nothing, and neither
do the blank lines and the padding of "\n  \nhello\n\n   \nworld\n". -/
theorem C12_line_trimming (t1 t2 : JSString) (h : prepareLines t1 = prepareLines t2) :
    parseBloodReport t1 = parseBloodReport t2 ∧
    (∀ a ws b : JSString, (∀ c ∈ ws, isSpace c = true) →
      parseBloodReport (a ++ 10 :: (ws ++ 10 :: b)) = parseBloodReport (a ++ 10 :: b)) ∧
    parseBloodReport (utf16 "\n  \nhello\n\n   \nworld\n") =
      parseBloodReport (utf16 "hello\nworld") := by
  refine ⟨parseBloodReport_congr h, ?_, by decide⟩
  intro a ws b hws
  apply parseBloodReport_congr
  have hblank : prepareLines ws = [] :=
    prepareLines_eq_nil (fun piece hp c hc => hws c (mem_of_mem_splitNewline ws piece c hp hc))
  rw [prepareLines_append, prepareLines_append, prepareLines_append, hblank, List.nil_append]

/-- C12 at "\n  \nhello\n\n   \nworld\n" and "hello\nworld", and at a blank line
inserted into "hello\nworld". -/
theorem C12_line_trimming_witness :
    prepareLines (utf16 "\n  \nhello\n\n   \nworld\n") =
        prepareLines (utf16 "hello\nworld") ∧
    (∀ c ∈ utf16 " \t ", isSpace c = true) ∧
    parseBloodReport (utf16 "\n  \nhello\n\n   \nworld\n") =
      parseBloodReport (utf16 "hello\nworld") ∧
    parseBloodReport (utf16 "hello" ++ 10 :: (utf16 " \t " ++ 10 :: utf16 "world")) =
      parseBloodReport (utf16 "hello" ++ 10 :: utf16 "world") :=
  ⟨by decide, by decide,
    (C12_line_trimming (utf16 "\n  \nhello\n\n   \nworld\n") (utf16 "hello\nworld")
      (by decide)).1,
    (C12_line_trimming (utf16 "\n  \nhello\n\n   \nworld\n") (utf16 "hello\nworld")
      (by decide)).2.1 (utf16 "hello") (utf16 " \t ") (utf16 "world") (by decide)⟩

/-! ## No failure at run time -/

theorem foldlM_eq_some {α β : Type} (f : β → α → Option β) (g : β → α → β) :
    ∀ (l : List α) (d : β), (∀ a ∈ l, ∀ d, f d a = some (g d a)) →
      l.foldlM f d = some (l.foldl g d)
  | [], d, _ => rfl
  | a :: t, d, h => by
    rw [List.foldlM_cons, h a (List.mem_cons_self _ _) d]
    exact foldlM_eq_some f g t (g d a) (fun b hb => h b (List.mem_cons_of_mem _ hb))

theorem pushMatchChecked_eq (index : Nat) (data : List Record) {m : MatchState}
    {g1 g2 : JSString} (h1 : m.cap1 = some g1) (h2 : m.cap2 = some g2) :
    pushMatchChecked index data m = some (pushMatch index data m) := by
  unfold pushMatchChecked pushMatch
  rw [h1, h2]
  simp only [capOr, Option.getD_some]
  by_cases ha : acceptName (trim g1) = true
  · rw [if_pos ha, if_pos ha]
  · rw [if_neg ha, if_neg ha]

theorem patternPassChecked_eq (index : Nat) (line : JSString) (data : List Record) :
    patternPassChecked index line data = some (patternPass index line data) := by
  unfold patternPassChecked patternPass
  apply foldlM_eq_some
  intro re hre d
  have hall : ∀ m ∈ matchAll re line, ∀ d,
      pushMatchChecked index d m = some (pushMatch index d m) := by
    intro m hm d1
    have hm1 : m ∈ matchAll patternA line ∨ m ∈ matchAll patternB line := by
      simp only [testPatterns, List.mem_cons, List.mem_singleton, List.not_mem_nil,
        or_false] at hre
      rcases hre with rfl | rfl
      · exact Or.inl hm
      · exact Or.inr hm
    obtain ⟨⟨g1, hg1, -⟩, ⟨g2, hg2, -, -⟩, -⟩ := matchAll_testPattern hm1
    exact pushMatchChecked_eq index d1 hg1 hg2
  by_cases hlen : (matchAll re line).length > 0
  · simp only [hlen, if_true]
    exact foldlM_eq_some _ _ _ d hall
  · simp only [hlen, if_false]

theorem headerCheckChecked_eq (lines : List JSString) (index : Nat) (line : JSString)
    (data : List Record) :
    headerCheckChecked lines index line data = some (headerCheck lines index line data) := by
  unfold headerCheckChecked headerCheck
  by_cases h1 : (decide (data.length = 0) || (jsMatch digitRe line).isNone) = true
  · rw [if_pos h1, if_pos h1]
    by_cases h2 : (decide (line.length > 3) && decide (line.length < 50)) = true
    · rw [if_pos h2, if_pos h2]
      cases hn : lines.get? (index + 1) with
      | none => rfl
      | some nl =>
        simp only []
        by_cases h3 : (decide (nl.length > 0) && (jsMatch numberRe nl).isSome) = true
        · rw [if_pos h3, if_pos h3]
          cases hv : jsMatch valueRe nl with
          | none => rfl
          | some vm =>
            obtain ⟨p, r, hmem⟩ := mem_of_execFrom _ _ hv
            obtain ⟨val, hval, -, -⟩ := mem_valueRe hmem
            simp only [hval, capOr, Option.getD_some]
        · rw [if_neg h3, if_neg h3]
    · rw [if_neg h2, if_neg h2]
  · rw [if_neg h1, if_neg h1]

theorem lineStepChecked_eq (lines : List JSString) (data : List Record)
    (il : Nat × JSString) :
    lineStepChecked lines data il = some (lineStep lines data il) := by
  unfold lineStepChecked lineStep
  rw [patternPassChecked_eq, Option.some_bind, headerCheckChecked_eq]

/-- The function with explicit failures never fails and returns what `parseBloodReport`
returns. -/
theorem parseBloodReportChecked_eq (text : JSString) :
    parseBloodReportChecked text = some (parseBloodReport text) := by
  unfold parseBloodReportChecked parseBloodReport scanLines
  simp only []
  rw [foldlM_eq_some (lineStepChecked (prepareLines text)) (lineStep (prepareLines text)) _ _
    (fun il _ d => lineStepChecked_eq (prepareLines text) d il)]
  rfl

/-- A scan with `matchAll` reports at most one match per start index. -/
theorem matchAllFrom_length_le (re : Matcher) :
    ∀ (s : JSString) (skip pos : Nat), (matchAllFrom re skip pos s).length ≤ s.length + 1
  | [], skip, pos => by
    unfold matchAllFrom
    by_cases hs : skip = 0
    · rw [if_pos hs]
      cases matchAt re pos [] <;> simp
    · rw [if_neg hs]
      simp
  | c :: r, 0, pos => by
    unfold matchAllFrom
    simp only []
    cases hm : matchAt re pos (c :: r) with
    | some y =>
      have := matchAllFrom_length_le re r (y.pos - pos - 1) (pos + 1)
      simp only [List.length_cons]
      omega
    | none =>
      have := matchAllFrom_length_le re r 0 (pos + 1)
      simp only [List.length_cons]
      omega
  | c :: r, k + 1, pos => by
    unfold matchAllFrom
    simp only []
    have := matchAllFrom_length_le re r k (pos + 1)
    simp only [List.length_cons]
    omega

/-- C13: `parseBloodReport` is total: the function with the run-time failures made explicit
never fails and returns the output of `parseBloodReport`; the scan of a line with either
test pattern ends after at most one match per start index; on every match of a test
pattern the groups 1 and 2 are present. -/
theorem C13_totality (text line : JSString) (m : MatchState) :
    parseBloodReportChecked text = some (parseBloodReport text) ∧
    (matchAll patternA line).length ≤ line.length + 1 ∧
    (matchAll patternB line).length ≤ line.length + 1 ∧
    (m ∈ matchAll patternA line ∨ m ∈ matchAll patternB line →
      m.cap1.isSome = true ∧ m.cap2.isSome = true) := by
  refine ⟨parseBloodReportChecked_eq text, matchAllFrom_length_le _ _ _ _,
    matchAllFrom_length_le _ _ _ _, ?_⟩
  intro hm
  obtain ⟨⟨g1, hg1, -⟩, ⟨g2, hg2, -, -⟩, -⟩ := matchAll_testPattern hm
  simp [hg1, hg2]

/-- C13 at the text "Glucose 90\nCholesterol\n190 mg/dL" and at the match of pattern A on
the line "Glucose 90". -/
theorem C13_totality_witness :
    (MatchState.mk 10 [] (some (utf16 "Glucose")) (some (utf16 "90")) none ∈
        matchAll patternA (utf16 "Glucose 90") ∨
      MatchState.mk 10 [] (some (utf16 "Glucose")) (some (utf16 "90")) none ∈
        matchAll patternB (utf16 "Glucose 90")) ∧
    parseBloodReportChecked (utf16 "Glucose 90\nCholesterol\n190 mg/dL") =
      some (parseBloodReport (utf16 "Glucose 90\nCholesterol\n190 mg/dL")) ∧
    ((MatchState.mk 10 [] (some (utf16 "Glucose")) (some (utf16 "90")) none).cap1.isSome =
        true ∧
      (MatchState.mk 10 [] (some (utf16 "Glucose")) (some (utf16 "90")) none).cap2.isSome =
        true) :=
  ⟨by decide,
    (C13_totality (utf16 "Glucose 90\nCholesterol\n190 mg/dL") (utf16 "Glucose 90")
      (MatchState.mk 10 [] (some (utf16 "Glucose")) (some (utf16 "90")) none)).1,
    (C13_totality (utf16 "Glucose 90\nCholesterol\n190 mg/dL") (utf16 "Glucose 90")
      (MatchState.mk 10 [] (some (utf16 "Glucose")) (some (utf16 "90")) none)).2.2.2
      (by decide)⟩

/-! ## Row numbers -/

/-- One step of the scan appends records, all with the number of the line scanned. -/
theorem lineStep_appends (lines : List JSString) (data : List Record)
    (il : Nat × JSString) :
    ∃ new, lineStep lines data il = data ++ new ∧
      ∀ r ∈ new, ∃ n v u, r = Record.structured n v u (il.1 + 1) := by
  have hpp : ∀ r ∈ patternPass il.1 il.2 [], ∃ n v u, r = Record.structured n v u (il.1 + 1) := by
    intro r hr
    obtain ⟨m, -, hm⟩ := mem_patternPass hr
    exact ⟨_, _, _, (mem_pushMatch hm).2⟩
  unfold lineStep
  rcases headerCheck_cases lines il.1 il.2 (patternPass il.1 il.2 data) with hc | hc
  · rw [hc, patternPass_nil]
    exact ⟨_, rfl, hpp⟩
  · obtain ⟨nl, vm, -, -, -, -, -, -, he⟩ := hc
    rw [he, patternPass_nil, List.append_assoc]
    refine ⟨_, rfl, ?_⟩
    intro r hr
    rcases List.mem_append.1 hr with hr | hr
    · exact hpp r hr
    · exact ⟨_, _, _, List.mem_singleton.1 hr⟩

theorem rowNumbers_of_new {new : List Record} {k : Nat}
    (h : ∀ r ∈ new, ∃ n v u, r = Record.structured n v u k) :
    ∀ j ∈ new.filterMap Record.rowNumber?, j = k := by
  intro j hj
  obtain ⟨r, hr, hrj⟩ := List.mem_filterMap.1 hj
  obtain ⟨n, v, u, rfl⟩ := h r hr
  simp only [Record.rowNumber?, Option.some.injEq] at hrj
  exact hrj.symm

/-- Along the scan the row numbers never decrease and stay within the lines scanned. -/
theorem scan_rows_sorted (lines : List JSString) :
    ∀ (l : List JSString) (start : Nat) (data : List Record),
      (∀ j ∈ data.filterMap Record.rowNumber?, j ≤ start) →
      (data.filterMap Record.rowNumber?).Pairwise (· ≤ ·) →
      (∀ j ∈ ((l.enumFrom start).foldl (lineStep lines) data).filterMap Record.rowNumber?,
          j ≤ start + l.length) ∧
        (((l.enumFrom start).foldl (lineStep lines) data).filterMap
          Record.rowNumber?).Pairwise (· ≤ ·)
  | [], start, data, hb, hp => by
    simp only [List.enumFrom_nil, List.foldl_nil, List.length_nil, Nat.add_zero]
    exact ⟨hb, hp⟩
  | a :: t, start, data, hb, hp => by
    obtain ⟨new, he, hnew⟩ := lineStep_appends lines data (start, a)
    have hrows := rowNumbers_of_new hnew
    have hb1 : ∀ j ∈ (data ++ new).filterMap Record.rowNumber?, j ≤ start + 1 := by
      intro j hj
      rw [List.filterMap_append] at hj
      rcases List.mem_append.1 hj with hj | hj
      · exact Nat.le_succ_of_le (hb j hj)
      · exact Nat.le_of_eq (hrows j hj)
    have hp1 : ((data ++ new).filterMap Record.rowNumber?).Pairwise (· ≤ ·) := by
      rw [List.filterMap_append, List.pairwise_append]
      refine ⟨hp, ?_, ?_⟩
      · rw [List.pairwise_iff_forall_sublist]
        intro x y hxy
        have hx := hrows x (hxy.subset (List.mem_cons_self _ _))
        have hy := hrows y (hxy.subset (List.mem_cons_of_mem _ (List.mem_singleton_self _)))
        omega
      · intro x hx y hy
        have := hb x hx
        have := hrows y hy
        omega
    have ih := scan_rows_sorted lines t (start + 1) (data ++ new) hb1 hp1
    simp only [List.enumFrom_cons, List.foldl_cons, he, List.length_cons]
    refine ⟨?_, ih.2⟩
    intro j hj
    have := ih.1 j hj
    omega

theorem scanLines_rows_sorted (lines : List JSString) :
    ((scanLines lines).filterMap Record.rowNumber?).Pairwise (· ≤ ·) :=
  (scan_rows_sorted lines lines 0 [] (by simp) (by simp)).2

/-- The row number of a record of the scan is the 1-based index of one of the lines. -/
theorem scan_row_bounds {lines : List JSString} {n v u : JSString} {k : Nat}
    (h : Record.structured n v u k ∈ scanLines lines) : 1 ≤ k ∧ k ≤ lines.length := by
  have hk : ∃ il, il ∈ lines.enum ∧ k = il.1 + 1 := by
    obtain ⟨il, hil, h | ⟨nl, vm, -, -, -, -, heq⟩⟩ := mem_scanLines h
    · exact ⟨il, hil, (patternPass_record h).1⟩
    · injection heq with e1 e2 e3 e4
      exact ⟨il, hil, e4⟩
  obtain ⟨il, hil, rfl⟩ := hk
  have := List.fst_lt_of_mem_enum hil
  omega

/-- Which line a record of the scan comes from: the line at the 1-based position given by
its row number, through a match of a test pattern on that line or through the header /
next-line block of that line. -/
theorem scan_row_origin {lines : List JSString} {n v u : JSString} {k : Nat}
    (h : Record.structured n v u k ∈ scanLines lines) :
    ∃ line, lines.get? (k - 1) = some line ∧
      (Record.structured n v u k ∈ patternPass (k - 1) line [] ∨
        (n = line ∧ ∃ nl vm, lines.get? k = some nl ∧ jsMatch valueRe nl = some vm ∧
          v = capOr vm.cap1 ∧ u = orEmpty vm.cap2)) := by
  obtain ⟨il, hil, hp | ⟨nl, vm, -, -, hget, hvm, heq⟩⟩ := mem_scanLines h
  · have hk : k = il.1 + 1 := (patternPass_record hp).1
    have hk1 : k - 1 = il.1 := by omega
    refine ⟨il.2, ?_, Or.inl ?_⟩
    · rw [hk1, List.get?_eq_getElem?]
      exact List.mem_enum_iff_getElem?.1 hil
    · rw [hk1]
      exact hp
  · injection heq with e1 e2 e3 e4
    have hk1 : k - 1 = il.1 := by omega
    refine ⟨il.2, ?_, Or.inr ⟨e1, nl, vm, ?_, hvm, e2, e3⟩⟩
    · rw [hk1, List.get?_eq_getElem?]
      exact List.mem_enum_iff_getElem?.1 hil
    · rw [e4]
      exact hget

/-- C14: with n prepared lines, the Row Number k of every structured record of the output
lies in 1..n and the Row Numbers do not decrease along the output; the record comes from the
line at position k (1-based) of the prepared lines, as a record of the pattern pass of that
line or as the header / next-line record of that line; and every step of the scan appends
only records whose Row Number is the 1-based position of the line being scanned. -/
theorem C14_row_numbers (text n v u : JSString) (k : Nat)
    (h : Record.structured n v u k ∈ parseBloodReport text) :
    (1 ≤ k ∧ k ≤ (prepareLines text).length ∧
      ((parseBloodReport text).filterMap Record.rowNumber?).Pairwise (· ≤ ·)) ∧
    (∃ line, (prepareLines text).get? (k - 1) = some line ∧
      (Record.structured n v u k ∈ patternPass (k - 1) line [] ∨
        (n = line ∧ ∃ nl vm, (prepareLines text).get? k = some nl ∧
          jsMatch valueRe nl = some vm ∧ v = capOr vm.cap1 ∧ u = orEmpty vm.cap2))) ∧
    (∀ (lines : List JSString) (data : List Record) (index : Nat) (line : JSString),
      ∃ new, lineStep lines data (index, line) = data ++ new ∧
        ∀ r ∈ new, ∃ n1 v1 u1, r = Record.structured n1 v1 u1 (index + 1)) := by
  have hs := structured_mem_scan h
  obtain ⟨h1, h2⟩ := scan_row_bounds hs
  refine ⟨⟨h1, h2, ?_⟩, scan_row_origin hs,
    fun lines data index line => lineStep_appends lines data (index, line)⟩
  rcases parseBloodReport_cases text with ⟨-, he⟩ | ⟨-, he⟩
  · rw [he]
    exact scanLines_rows_sorted _
  · rw [he] at h
    simp at h

/-- C14 at a pattern-pass record of the second line of "Sodium 140\nGlucose 90", whose Row
Number is 2 of 2 lines. -/
theorem C14_row_numbers_witness :
    Record.structured (utf16 "Glucose") (utf16 "90") [] 2 ∈
        parseBloodReport (utf16 "Sodium 140\nGlucose 90") ∧
    ((1 ≤ 2 ∧ 2 ≤ (prepareLines (utf16 "Sodium 140\nGlucose 90")).length ∧
      ((parseBloodReport (utf16 "Sodium 140\nGlucose 90")).filterMap
        Record.rowNumber?).Pairwise (· ≤ ·)) ∧
    (∃ line, (prepareLines (utf16 "Sodium 140\nGlucose 90")).get? (2 - 1) = some line ∧
      (Record.structured (utf16 "Glucose") (utf16 "90") [] 2 ∈ patternPass (2 - 1) line [] ∨
        (utf16 "Glucose" = line ∧
          ∃ nl vm, (prepareLines (utf16 "Sodium 140\nGlucose 90")).get? 2 = some nl ∧
            jsMatch valueRe nl = some vm ∧ utf16 "90" = capOr vm.cap1 ∧
            [] = orEmpty vm.cap2))) ∧
    (∀ (lines : List JSString) (data : List Record) (index : Nat) (line : JSString),
      ∃ new, lineStep lines data (index, line) = data ++ new ∧
        ∀ r ∈ new, ∃ n1 v1 u1, r = Record.structured n1 v1 u1 (index + 1))) :=
  ⟨by decide,
    C14_row_numbers (utf16 "Sodium 140\nGlucose 90") (utf16 "Glucose") (utf16 "90") [] 2
      (by decide)⟩

/-- Row numbers on a concrete run: the rows of "Sodium 140\nhi\nGlucose 90" carry the numbers
1, 1, 3, 3, the positions of the two lines that emit records (the second line emits
none). -/
theorem row_numbers_skip_silent_line :
    parseBloodReport (utf16 "Sodium 140\nhi\nGlucose 90") =
      [Record.structured (utf16 "Sodium") (utf16 "140") [] 1,
       Record.structured (utf16 "Sodium") (utf16 "140") [] 1,
       Record.structured (utf16 "Glucose") (utf16 "90") [] 3,
       Record.structured (utf16 "Glucose") (utf16 "90") [] 3] := by
  decide

/-- C15: the pattern pass of a line appends the records of all accepted matches of pattern
A, in match order, and then those of all accepted matches of pattern B, whatever has been
accumulated before; nothing is removed, so "Glucose 90 mg/dL", matched by both patterns,
yields the same record twice. -/
theorem C15_no_deduplication (index : Nat) (line : JSString) (data : List Record) :
    patternPass index line data =
      data ++ ((matchAll patternA line).flatMap (pushMatch index []) ++
        (matchAll patternB line).flatMap (pushMatch index [])) ∧
    (matchAll patternA (utf16 "Glucose 90 mg/dL")).flatMap (pushMatch 0 []) =
      [Record.structured (utf16 "Glucose") (utf16 "90") (utf16 "mg/dL") 1] ∧
    (matchAll patternB (utf16 "Glucose 90 mg/dL")).flatMap (pushMatch 0 []) =
      [Record.structured (utf16 "Glucose") (utf16 "90") (utf16 "mg/dL") 1] ∧
    parseBloodReport (utf16 "Glucose 90 mg/dL") =
      [Record.structured (utf16 "Glucose") (utf16 "90") (utf16 "mg/dL") 1,
       Record.structured (utf16 "Glucose") (utf16 "90") (utf16 "mg/dL") 1] :=
  ⟨patternPass_eq index line data, by decide, by decide, by decide⟩

end PdfToExcel
